import Mathlib

/-!
Verification of the DEFLATE decoder (src/inflate.rs) and the ZIP reader
(src/zip_read.rs) of the miniz-rs repository, via a shallow embedding.

Modelling conventions:
* Rust byte slices become `List Nat` whose elements are intended to be < 256;
  theorems that depend on byte semantics carry that bound as a hypothesis.
* Machine integers become `Nat`.  Where the source can overflow a fixed-width
  integer (`u16` code arithmetic) we model release-mode wrapping explicitly
  with `% 65536`.  Where the source indexes a slice or array, the embedding
  checks the same bound explicitly and produces `Res.crash` when the source
  would panic (Rust bounds checks panic in every build profile).
* Loops whose termination is not structural take a `fuel` argument and return
  `Res.spin` on exhaustion; every concrete evaluation instantiates ample fuel.
* Fallible Rust functions returning `Result<T, Error>` become `Res Error T`.
-/

/-! ### Claim C4: characterization of the bit reader -/

set_option maxRecDepth 1000000
set_option maxHeartbeats 4000000

/-- Error enum from src/lib.rs. -/
inductive Error where
  | Underflow
  | Overflow
  | InvalidHeader
  | InvalidBitstream
  | InvalidBlockType
  | InvalidBlockLength
  | InvalidCodeLength
  | InvalidDistance
  | InvalidLength
  | InvalidSymbol
  | InvalidData
  | UnderSubscribedTree
  | OverSubscribedTree
deriving DecidableEq, Repr

/-- Outcome of an embedded Rust computation: a value, a returned error, a
panic (`crash`, from a failed slice/array bounds check), or fuel exhaustion
(`spin`, an artifact of the embedding, never reached with ample fuel). -/
inductive Res (ε α : Type) where
  | ok : α → Res ε α
  | err : ε → Res ε α
  | crash : Res ε α
  | spin : Res ε α
deriving DecidableEq, Repr

def Res.bind {ε α β : Type} : Res ε α → (α → Res ε β) → Res ε β
  | .ok a, f => f a
  | .err e, _ => .err e
  | .crash, _ => .crash
  | .spin, _ => .spin

instance {ε : Type} : Monad (Res ε) where
  pure := Res.ok
  bind := Res.bind

/-- Whether an embedded computation produced a value. -/
def Res.isOk {ε α : Type} : Res ε α → Bool
  | .ok _ => true
  | _ => false

/-- Extract the value of an embedded computation, with a default. -/
def Res.getOr {ε α : Type} (d : α) : Res ε α → α
  | .ok a => a
  | _ => d

/-- The returned error of an embedded computation, if any.  Used to state
concrete evaluations about results whose payload is a function type. -/
def Res.errOf {ε α : Type} : Res ε α → Option ε
  | .err e => some e
  | _ => none

/-- Whether an embedded computation panicked. -/
def Res.isCrash {ε α : Type} : Res ε α → Bool
  | .crash => true
  | _ => false

/-- show_bits, src/inflate.rs lines 9-28.  `bp` is the bit position, `src`
the input bytes, `count` the number of bits requested.  The `% 65536` in the
three-byte branch models the `as u16` truncation of the source. -/
def show_bits (bp : Nat) (src : List Nat) (count : Nat) : Res Error Nat :=
  let bytepos := bp >>> 3
  let shift := bp &&& 7
  let mask := (1 <<< count) - 1
  if bytepos + 2 < src.length then
    let bits32 := (src.getD (bytepos + 2) 0 <<< 16) |||
      (src.getD (bytepos + 1) 0 <<< 8) ||| src.getD bytepos 0
    .ok (((bits32 >>> shift) % 65536) &&& mask)
  else if bytepos + 1 < src.length then
    let bits16 := (src.getD (bytepos + 1) 0 <<< 8) ||| src.getD bytepos 0
    .ok ((bits16 >>> shift) &&& mask)
  else if bytepos + 1 = src.length then
    let bits8 := src.getD bytepos 0
    .ok ((bits8 >>> shift) &&& mask)
  else
    .err .Underflow

/-- read_bits, src/inflate.rs lines 31-35: a peek followed by an advance of
the bit pointer, which is threaded explicitly. -/
def read_bits (src : List Nat) (sptr : Nat) (count : Nat) : Res Error (Nat × Nat) := do
  let res ← show_bits sptr src count
  pure (res, sptr + count)

/-- reverse_bits, src/inflate.rs lines 38-44, on a 16-bit value.  For
`x < 2 ^ 16` every intermediate of the source stays below `2 ^ 16`, so plain
`Nat` arithmetic coincides with the `u16` arithmetic of the source. -/
def reverse_bits (x : Nat) (count : Nat) : Nat :=
  let x1 := ((x &&& 0x5555) <<< 1) ||| ((x >>> 1) &&& 0x5555)
  let x2 := ((x1 &&& 0x3333) <<< 2) ||| ((x1 >>> 2) &&& 0x3333)
  let x3 := ((x2 &&& 0x0f0f) <<< 4) ||| ((x2 >>> 4) &&& 0x0f0f)
  let x4 := ((x3 &&& 0x00ff) <<< 8) ||| ((x3 >>> 8) &&& 0x00ff)
  x4 >>> (16 - count)

/-- FIRSTBITS, src/inflate.rs line 47. -/
def FIRSTBITS : Nat := 9

/-- INVALIDSYMBOL, src/inflate.rs line 48. -/
def INVALIDSYMBOL : Nat := 32767

/-- VarLenCode, src/inflate.rs lines 51-55. -/
structure VarLenCode where
  code : Nat
  len : Nat
deriving DecidableEq, Repr

/-- LookupTable, src/inflate.rs line 57: a `512 + 512` entry array, modelled
as a total function whose meaningful domain is `0..1023`; every place where
the source indexes the array with a computed index carries an explicit bound
check that produces `Res.crash` exactly when the source would panic. -/
def LookupTable := Nat → VarLenCode

/-- One step of the histogram loop of generate_codes (src/inflate.rs lines
63-67).  A length of 16 or more would be an out-of-bounds index into
`code_len_count` in the source, hence `crash`. -/
def histogram_step (acc : Res Error (Nat → Nat)) (c : VarLenCode) : Res Error (Nat → Nat) :=
  match acc with
  | .ok cnt =>
    if c.len < 16 then
      .ok (fun i => if i = c.len then cnt c.len + 1 else cnt i)
    else
      .crash
  | r => r

/-- First loop of generate_codes (src/inflate.rs lines 63-67): histogram the
code lengths. -/
def code_len_histogram (table : List VarLenCode) : Res Error (Nat → Nat) :=
  table.foldl histogram_step (.ok (fun _ => 0))

/-- Second loop of generate_codes (src/inflate.rs lines 70-73):
`next_code[i] = (next_code[i-1] + code_len_count[i-1]) << 1`, in `u16`
arithmetic, hence the explicit wrap `% 65536`. -/
def next_code_fn (cnt : Nat → Nat) : Nat → Nat
  | 0 => 0
  | i + 1 => ((next_code_fn cnt i + cnt i) <<< 1) % 65536

/-- One step of the assignment loop of generate_codes (src/inflate.rs lines
75-82): a zero-length symbol passes through; otherwise the symbol receives
the bit-reversed value of the running `next_code` counter of its length,
which is then bumped (`u16`, wrapping). -/
def assign_step (st : List VarLenCode × (Nat → Nat)) (c : VarLenCode) :
    List VarLenCode × (Nat → Nat) :=
  if c.len = 0 then (st.1 ++ [c], st.2)
  else
    let code := reverse_bits (st.2 c.len) c.len
    (st.1 ++ [⟨code, c.len⟩],
     fun i => if i = c.len then (st.2 c.len + 1) % 65536 else st.2 i)

/-- Third loop of generate_codes (src/inflate.rs lines 75-82). -/
def assign_codes (table : List VarLenCode) (nc : Nat → Nat) :
    List VarLenCode × (Nat → Nat) :=
  table.foldl assign_step ([], nc)

/-- generate_codes, src/inflate.rs lines 60-83.  The source mutates the
table in place; the embedding returns the rewritten table. -/
def generate_codes (table : List VarLenCode) : Res Error (List VarLenCode) := do
  let cnt ← code_len_histogram table
  pure (assign_codes table (next_code_fn cnt)).1

/-- One step of make_lookup_table step 1 (src/inflate.rs lines 93-104). -/
def maxlens_step (m : Nat → Nat) (c : VarLenCode) : Nat → Nat :=
  if c.len ≤ FIRSTBITS then m
  else
    let index := c.code &&& 511
    fun i => if i = index then max (m index) c.len else m i

/-- make_lookup_table step 1 (src/inflate.rs lines 93-104): for each symbol
longer than FIRSTBITS, record the maximal total bit length among symbols
sharing its 9-bit first-table index. -/
def compute_maxlens (inp : List VarLenCode) : Nat → Nat :=
  inp.foldl maxlens_step (fun _ => 0)

/-- One step of make_lookup_table step 2 (src/inflate.rs lines 107-112). -/
def size_step (maxlens : Nat → Nat) (s : Nat) (i : Nat) : Nat :=
  if FIRSTBITS < maxlens i then s + (1 <<< (maxlens i - FIRSTBITS)) else s

/-- make_lookup_table step 2 (src/inflate.rs lines 107-112): total table
size, the head table plus one secondary table per long prefix. -/
def table_size (maxlens : Nat → Nat) : Nat :=
  (List.range 512).foldl (size_step maxlens) 512

/-- One step of make_lookup_table step 3 (src/inflate.rs lines 118-129). -/
def head_step (maxlens : Nat → Nat) (tp : LookupTable × Nat) (i : Nat) :
    LookupTable × Nat :=
  if maxlens i ≤ FIRSTBITS then tp
  else
    ((fun j => if j = i then ⟨tp.2, maxlens i⟩ else tp.1 j),
     tp.2 + (1 <<< (maxlens i - FIRSTBITS)))

/-- make_lookup_table step 3 (src/inflate.rs lines 115-129): initialize all
1024 entries with the invalid length 16, then write an indirection entry
(pool pointer, maximal prefix length) into the head table for each long
prefix.  The running pointer never exceeds `512 + 512 * 64 < 2 ^ 16`, so the
`as u16` cast of the source is lossless and is not modelled. -/
def fill_head_pointers (maxlens : Nat → Nat) : LookupTable × Nat :=
  (List.range 512).foldl (head_step maxlens) ((fun _ => ⟨0, 16⟩), 512)

/-- One write of the short-symbol stamping loop (src/inflate.rs lines
145-153): fail with OverSubscribedTree on an already-used entry. -/
def stamp_short_step (i : Nat) (c : VarLenCode) (acc : Res Error LookupTable)
    (j : Nat) : Res Error LookupTable :=
  match acc with
  | .ok tt =>
    let index := c.code ||| (j <<< c.len)
    if index < 1024 then
      if (tt index).len ≠ 16 then .err .OverSubscribedTree
      else .ok (fun k => if k = index then ⟨i, c.len⟩ else tt k)
    else .crash
  | r => r

/-- make_lookup_table short-symbol stamping (src/inflate.rs lines 141-153):
replicate the symbol over the head table.  `i` is the symbol index. -/
def stamp_short (t : LookupTable) (i : Nat) (c : VarLenCode) : Res Error LookupTable :=
  (List.range (1 <<< (FIRSTBITS - c.len))).foldl (stamp_short_step i c) (.ok t)

/-- One write of the long-symbol stamping loop (src/inflate.rs lines
171-176); note the source performs no collision check here. -/
def stamp_long_step (i : Nat) (c : VarLenCode) (start : Nat)
    (acc : Res Error LookupTable) (j : Nat) : Res Error LookupTable :=
  match acc with
  | .ok tt =>
    let reverse2 := c.code >>> FIRSTBITS
    let index2 := start + (reverse2 ||| (j <<< (c.len - FIRSTBITS)))
    if index2 < 1024 then
      .ok (fun k => if k = index2 then ⟨i, c.len⟩ else tt k)
    else .crash
  | r => r

/-- make_lookup_table long-symbol stamping (src/inflate.rs lines 154-177):
look up the indirection entry of the symbol 9-bit prefix and replicate the
symbol over its secondary table.  The source computes `num` before testing
`maxlen < l`; both are pure here. -/
def stamp_long (t : LookupTable) (i : Nat) (c : VarLenCode) : Res Error LookupTable :=
  let index := c.code &&& 511
  let maxlen := (t index).len
  let tablelen := maxlen - FIRSTBITS
  let start := (t index).code
  let num := 1 <<< (tablelen - (c.len - FIRSTBITS))
  if maxlen < c.len then .err .OverSubscribedTree
  else
    (List.range num).foldl (stamp_long_step i c start) (.ok t)

/-- One step of the main stamping loop of make_lookup_table (src/inflate.rs
lines 132-178): skip absent symbols, stamp the rest, and count them. -/
def stamp_step (acc : Res Error (LookupTable × Nat)) (ic : Nat × VarLenCode) :
    Res Error (LookupTable × Nat) :=
  match acc with
  | .ok (tt, np) =>
    if ic.2.len = 0 then .ok (tt, np)
    else if ic.2.len ≤ FIRSTBITS then
      match stamp_short tt ic.1 ic.2 with
      | .ok tt2 => .ok (tt2, np + 1)
      | .err e => .err e
      | .crash => .crash
      | .spin => .spin
    else
      match stamp_long tt ic.1 ic.2 with
      | .ok tt2 => .ok (tt2, np + 1)
      | .err e => .err e
      | .crash => .crash
      | .spin => .spin
  | r => r

/-- make_lookup_table main stamping loop (src/inflate.rs lines 132-178),
also counting the symbols that are present. -/
def stamp_symbols (inp : List VarLenCode) (t : LookupTable) :
    Res Error (LookupTable × Nat) :=
  inp.enum.foldl stamp_step (.ok (t, 0))

/-- One step of the under-subscription scan (src/inflate.rs lines 198-202). -/
def scan_step (table : LookupTable) (acc : Option Error) (i : Nat) : Option Error :=
  match acc with
  | some e => some e
  | none => if (table i).len = 16 then some Error.UnderSubscribedTree else none

/-- make_lookup_table, src/inflate.rs lines 86-206.  With fewer than two
symbols present, the unused head-table entries are given the INVALIDSYMBOL
placeholder (lines 180-192); otherwise any entry among the first `size`
(clamped to 1024, as `iter().take` clamps) still carrying length 16 is an
under-subscribed tree (lines 193-203). -/
def make_lookup_table (inp : List VarLenCode) : Res Error LookupTable := do
  let inp ← generate_codes inp
  let maxlens := compute_maxlens inp
  let size := table_size maxlens
  let table0 := (fill_head_pointers maxlens).1
  let tn ← stamp_symbols inp table0
  let table := tn.1
  if tn.2 < 2 then
    pure (fun i => if i < 512 ∧ (table i).len = 16 then ⟨INVALIDSYMBOL, 1⟩ else table i)
  else
    match (List.range (min size 1024)).foldl (scan_step table) none with
    | some e => .err e
    | none => pure table

/-- read_symbol, src/inflate.rs lines 209-232: resolve one symbol with at
most two indexed accesses.  The second access carries the bounds check of
the source array indexing. -/
def read_symbol (src : List Nat) (sptr : Nat) (lookup_table : LookupTable) :
    Res Error (Nat × Nat) := do
  let bits9 ← show_bits sptr src 9
  let code0 := lookup_table bits9
  if code0.len ≤ FIRSTBITS then
    pure (code0.code, sptr + code0.len)
  else
    let sptr2 := sptr + FIRSTBITS
    let count := code0.len - FIRSTBITS
    let bits ← show_bits sptr2 src count
    let idx := code0.code + bits
    if idx < 1024 then
      let code := lookup_table idx
      pure (code.code, sptr2 + (code.len - FIRSTBITS))
    else .crash

/-- generate_fixed_luts literal/length lengths, src/inflate.rs lines 236-239:
8 bits for symbols 0-143, 9 for 144-255, 7 for 256-279, 8 for 280-287. -/
def FIXED_LL : List VarLenCode :=
  List.replicate 144 ⟨0, 8⟩ ++ List.replicate 112 ⟨0, 9⟩ ++
    List.replicate 24 ⟨0, 7⟩ ++ List.replicate 8 ⟨0, 8⟩

/-- generate_fixed_luts distance lengths, src/inflate.rs lines 242-243:
5 bits for all 32 distance symbols. -/
def FIXED_D : List VarLenCode := List.replicate 32 ⟨0, 5⟩

/-- generate_fixed_luts, src/inflate.rs lines 235-247. -/
def generate_fixed_luts : Res Error (LookupTable × LookupTable) := do
  let lut_ll ← make_lookup_table FIXED_LL
  let lut_d ← make_lookup_table FIXED_D
  pure (lut_ll, lut_d)

/-- generate_lut, src/inflate.rs lines 250-256. -/
def generate_lut (bitlen : List Nat) : Res Error LookupTable :=
  make_lookup_table (bitlen.map fun len => ⟨0, len⟩)

/-- CODE_LEN_PERM, src/inflate.rs lines 274-276. -/
def CODE_LEN_PERM : List Nat :=
  [16, 17, 18, 0, 8, 7, 9, 6, 10, 5, 11, 4, 12, 3, 13, 2, 14, 1, 15]

/-- The HCLEN read loop of read_encoded_luts (src/inflate.rs lines 277-279):
read a 3-bit length for the first `cl_len` entries of the permutation,
producing the 19-entry meta code-length assignment. -/
def read_cl_lens (src : List Nat) (sptr : Nat) (cl_len : Nat) :
    Res Error ((Nat → Nat) × Nat) :=
  (CODE_LEN_PERM.take cl_len).foldl
    (fun acc cl =>
      match acc with
      | .ok (f, sp) =>
        match read_bits src sp 3 with
        | .ok (v, sp2) => .ok ((fun s => if s = cl then v else f s), sp2)
        | .err e => .err e
        | .crash => .crash
        | .spin => .spin
      | r => r)
    (.ok ((fun _ => 0), sptr))

/-- The code-length decode loop of read_encoded_luts (src/inflate.rs lines
288-324): decode meta symbols into the combined `bitlen` vector until `ptr`
reaches `count = HLIT + HDIST`.  Every run guard reproduces the source
comparison `ptr + len >= count`.  The vector fills stay inside the 320-entry
array of the source because the guard enforces `ptr + len < count ≤ 316`. -/
def read_code_lengths (fuel : Nat) (src : List Nat) (sptr : Nat)
    (vlc_cl : LookupTable) (count : Nat) (bitlen : Nat → Nat) (ptr : Nat) :
    Res Error ((Nat → Nat) × Nat) :=
  match fuel with
  | 0 => .spin
  | fuel + 1 =>
    if ptr < count then do
      let (code, sptr) ← read_symbol src sptr vlc_cl
      if code ≤ 15 then
        read_code_lengths fuel src sptr vlc_cl count
          (fun i => if i = ptr then code else bitlen i) (ptr + 1)
      else if code = 16 then
        if ptr = 0 then .err .InvalidData
        else do
          let (n, sptr) ← read_bits src sptr 2
          let len := 3 + n
          if count ≤ ptr + len then .err .InvalidData
          else
            let value := bitlen (ptr - 1)
            read_code_lengths fuel src sptr vlc_cl count
              (fun i => if ptr ≤ i ∧ i < ptr + len then value else bitlen i) (ptr + len)
      else if code = 17 ∨ code = 18 then do
        let (n, sptr) ← if code = 17 then read_bits src sptr 3 else read_bits src sptr 7
        let len := if code = 17 then 3 + n else 11 + n
        if count ≤ ptr + len then .err .InvalidData
        else
          read_code_lengths fuel src sptr vlc_cl count
            (fun i => if ptr ≤ i ∧ i < ptr + len then 0 else bitlen i) (ptr + len)
      else .err .InvalidData
    else .ok (bitlen, sptr)

/-- read_encoded_luts, src/inflate.rs lines 259-335. -/
def read_encoded_luts (fuel : Nat) (src : List Nat) (sptr : Nat) :
    Res Error (LookupTable × LookupTable × Nat) := do
  let (v1, sptr) ← read_bits src sptr 5
  let ll_len := v1 + 257
  let (v2, sptr) ← read_bits src sptr 5
  let dt_len := v2 + 1
  let (v3, sptr) ← read_bits src sptr 4
  let cl_len := v3 + 4
  if 286 < ll_len ∨ 30 < dt_len then .err .InvalidCodeLength
  else do
    let (cl, sptr) ← read_cl_lens src sptr cl_len
    let vlc_cl ← make_lookup_table ((List.range 19).map fun s => ⟨0, cl s⟩)
    let count := ll_len + dt_len
    let (bitlen, sptr) ← read_code_lengths fuel src sptr vlc_cl count (fun _ => 0) 0
    if bitlen 256 = 0 then .err .InvalidData
    else do
      let lut_ll ← generate_lut ((List.range ll_len).map bitlen)
      let lut_d ← generate_lut ((List.range dt_len).map fun i => bitlen (ll_len + i))
      pure (lut_ll, lut_d, sptr)

/-- DIST_INFO, src/inflate.rs lines 339-344: (extra bit count, base) per
distance symbol. -/
def DIST_INFO : List (Nat × Nat) :=
  [(0, 1), (0, 2), (0, 3), (0, 4), (1, 5), (1, 7), (2, 9), (2, 13),
   (3, 17), (3, 25), (4, 33), (4, 49), (5, 65), (5, 97), (6, 129), (6, 193),
   (7, 257), (7, 385), (8, 513), (8, 769), (9, 1025), (9, 1537), (10, 2049), (10, 3073),
   (11, 4097), (11, 6145), (12, 8193), (12, 12289), (13, 16385), (13, 24577)]

/-- CODE_INFO, src/inflate.rs lines 348-353: (extra bit count, base) per
length symbol 257..285. -/
def CODE_INFO : List (Nat × Nat) :=
  [(0, 3), (0, 4), (0, 5), (0, 6), (0, 7), (0, 8), (0, 9), (0, 10),
   (1, 11), (1, 13), (1, 15), (1, 17), (2, 19), (2, 23), (2, 27), (2, 31),
   (3, 35), (3, 43), (3, 51), (3, 59), (4, 67), (4, 83), (4, 99), (4, 115),
   (5, 131), (5, 163), (5, 195), (5, 227), (0, 258)]

/-- Write the bytes `vs` into `dst` starting at position `d`: the semantics
of an in-place write to the subslice of a Rust byte slice.  All uses below
establish `d + vs.length ≤ dst.length` before writing. -/
def write_seq (dst : List Nat) (d : Nat) (vs : List Nat) : List Nat :=
  dst.take d ++ vs ++ dst.drop (d + vs.length)

/-- `dst.copy_within(s..e, d)`, as used in src/inflate.rs lines 407 and 411:
copy the slice `[s, e)` of `dst` to positions starting at `d`. -/
def copy_within (dst : List Nat) (s e d : Nat) : List Nat :=
  write_seq dst d ((dst.drop s).take (e - s))

/-- The distance-1 fill of src/inflate.rs lines 383-387. -/
def fill_range (dst : List Nat) (start len v : Nat) : List Nat :=
  write_seq dst start (List.replicate len v)

/-- The copy loop of src/inflate.rs lines 406-409: copy the `distance` bytes
in `[start - distance, start)` to the write position `dptr`, advancing it by
`distance`, `k` times. -/
def stride_loop (dst : List Nat) (start distance dptr : Nat) : Nat → List Nat
  | 0 => dst
  | k + 1 =>
    stride_loop (copy_within dst (start - distance) start dptr)
      start distance (dptr + distance) k

/-- The back-reference copy of src/inflate.rs lines 403-412: `length / distance`
whole-window copies followed by the `length % distance` tail bytes. -/
def stride_copy (dst : List Nat) (start distance length : Nat) : List Nat :=
  let loops := length / distance
  let remain := length % distance
  let dst2 := stride_loop dst start distance start loops
  copy_within dst2 (start - distance) (start - distance + remain) (start + loops * distance)

/-- Outcome of one iteration of the loop in inflate_huffman_block: either
the block ended (symbol 256) with the final state, or the loop continues
with the updated state `(dst, dptr, sptr)`. -/
inductive LoopStep where
  | done : List Nat → Nat → Nat → LoopStep
  | next : List Nat → Nat → Nat → LoopStep
deriving DecidableEq, Repr

/-- One iteration of the loop of inflate_huffman_block, src/inflate.rs lines
363-419.  The literal store `dst[*dptr]` panics (crash) when `dptr` is out
of bounds, exactly as the unchecked source indexing does.  In the distance-1
branch the source computes `start - 1` in `usize`; for `start = 0` the
release-profile wraparound produces a huge index, `get` yields `None` and
the source surfaces InvalidDistance, which is modelled directly. -/
def ihb_iter (dst : List Nat) (dptr : Nat) (src : List Nat) (sptr : Nat)
    (t_ll t_d : LookupTable) : Res Error LoopStep := do
  let (code_ll, sptr) ← read_symbol src sptr t_ll
  if code_ll ≤ 255 then
    if dptr < dst.length then .ok (.next (dst.set dptr code_ll) (dptr + 1) sptr)
    else .crash
  else if code_ll = 256 then .ok (.done dst dptr sptr)
  else if code_ll ≤ 285 then
    match CODE_INFO.get? (code_ll - 257) with
    | none => .err .InvalidLength
    | some info_ll => do
      let start := dptr
      let (extra, sptr) ← read_bits src sptr info_ll.1
      let length := info_ll.2 + extra
      let (code_d, sptr) ← read_symbol src sptr t_d
      if code_d = 0 then
        if start = 0 then .err .InvalidDistance
        else
          match dst.get? (start - 1) with
          | none => .err .InvalidDistance
          | some value =>
            if start + length ≤ dst.length then
              .ok (.next (fill_range dst start length value) (start + length) sptr)
            else .err .InvalidLength
      else
        match DIST_INFO.get? code_d with
        | none => .err .InvalidDistance
        | some info_d => do
          let (extra_d, sptr) ← read_bits src sptr info_d.1
          let distance := info_d.2 + extra_d
          if start < distance then .err .InvalidDistance
          else if dst.length - start < length then .err .InvalidLength
          else .ok (.next (stride_copy dst start distance length) (start + length) sptr)
  else .err .InvalidSymbol

/-- inflate_huffman_block, src/inflate.rs lines 356-420: iterate `ihb_iter`
until the end-of-block symbol, an error, or fuel exhaustion. -/
def inflate_huffman_block (fuel : Nat) (dst : List Nat) (dptr : Nat)
    (src : List Nat) (sptr : Nat) (t_ll t_d : LookupTable) :
    Res Error (List Nat × Nat × Nat) :=
  match fuel with
  | 0 => .spin
  | fuel + 1 =>
    match ihb_iter dst dptr src sptr t_ll t_d with
    | .ok (.next dst2 dptr2 sptr2) =>
      inflate_huffman_block fuel dst2 dptr2 src sptr2 t_ll t_d
    | .ok (.done dst2 dptr2 sptr2) => .ok (dst2, dptr2, sptr2)
    | .err e => .err e
    | .crash => .crash
    | .spin => .spin

/-- inflate_no_compression, src/inflate.rs lines 423-457.  The byte-boundary
alignment `(*sptr + 7) & (!7)` of a 64-bit `usize` is rounding down to a
multiple of 8.  The literal copy `dst[*dptr..*dptr + len]` carries no bounds
check in the source and panics (crash) when the output is too small. -/
def inflate_no_compression (dst : List Nat) (dptr : Nat) (src : List Nat)
    (sptr : Nat) : Res Error (List Nat × Nat × Nat) :=
  let sptr := (sptr + 7) / 8 * 8
  let bytepos := sptr >>> 3
  if src.length < bytepos + 4 then .err .Underflow
  else
    let len := src.getD bytepos 0 + (src.getD (bytepos + 1) 0 <<< 8)
    let nlen := src.getD (bytepos + 2) 0 + (src.getD (bytepos + 3) 0 <<< 8)
    if len + nlen ≠ 65535 then .err .InvalidBlockLength
    else if src.length < bytepos + 4 + len then .err .Underflow
    else if dptr + len ≤ dst.length then
      .ok (write_seq dst dptr ((src.drop (bytepos + 4)).take len),
        dptr + len, sptr + (4 + len) * 8)
    else .crash

/-- One iteration of the block loop of inflate, src/inflate.rs lines
464-482: read the final-block bit and the block type, dispatch, and return
the updated state together with the final-block bit. -/
def inflate_step (fuel : Nat) (dst : List Nat) (dptr : Nat) (src : List Nat)
    (sptr : Nat) : Res Error ((List Nat × Nat × Nat) × Nat) := do
  let (b_final, sptr) ← read_bits src sptr 1
  let (b_type, sptr) ← read_bits src sptr 2
  let st ←
    if b_type = 0 then inflate_no_compression dst dptr src sptr
    else if b_type = 1 then do
      let trees ← generate_fixed_luts
      inflate_huffman_block fuel dst dptr src sptr trees.1 trees.2
    else if b_type = 2 then do
      let tr ← read_encoded_luts fuel src sptr
      inflate_huffman_block fuel dst dptr src tr.2.2 tr.1 tr.2.1
    else .err .InvalidBlockType
  pure (st, b_final)

/-- The block loop of inflate, src/inflate.rs lines 463-487. -/
def inflate_loop (fuel : Nat) (dst : List Nat) (dptr : Nat) (src : List Nat)
    (sptr : Nat) : Res Error (List Nat × Nat) :=
  match fuel with
  | 0 => .spin
  | fuel + 1 =>
    match inflate_step fuel dst dptr src sptr with
    | .ok (st, b_final) =>
      if b_final ≠ 0 then .ok (st.1, st.2.1)
      else inflate_loop fuel st.1 st.2.1 src st.2.2
    | .err e => .err e
    | .crash => .crash
    | .spin => .spin

/-- inflate, src/inflate.rs lines 460-489.  On success the result carries
the final contents of the caller-supplied buffer together with the produced
byte count that the source returns. -/
def inflate (fuel : Nat) (dst : List Nat) (src : List Nat) :
    Res Error (List Nat × Nat) :=
  inflate_loop fuel dst 0 src 0

namespace Zip

/-- Error enum from src/zip_read.rs lines 6-15. -/
inductive Error where
  | InvalidZip
  | NoCentralDirectory
  | InvalidSignature
  | InvalidCompressionMethod
  | FileNotFound
  | CompressionError
  | BufferError
deriving DecidableEq, Repr

/-- File entry, src/zip_read.rs lines 46-50; the name bytes play no role in
extraction and are carried opaquely. -/
structure File where
  name : List Nat
  offset : Nat
deriving DecidableEq, Repr

/-- u16::from_le_bytes of two consecutive bytes of a slice. -/
def u16_le (data : List Nat) (i : Nat) : Nat :=
  data.getD i 0 + (data.getD (i + 1) 0 <<< 8)

/-- u32::from_le_bytes of four consecutive bytes of a slice. -/
def u32_le (data : List Nat) (i : Nat) : Nat :=
  data.getD i 0 + (data.getD (i + 1) 0 <<< 8) +
    (data.getD (i + 2) 0 <<< 16) + (data.getD (i + 3) 0 <<< 24)

/-- extract_file, src/zip_read.rs lines 95-124.  Mirrors the source exactly,
including its signature test `data.starts_with(...)` against the whole
archive rather than against the local file header slice `hdr`.  The
slicings `&data[ofs..ofs + 30]` and `&data[ofs..ofs + compressed_size]`
panic when out of range (crash); the debug print has no observable effect.
Inflate errors convert to CompressionError (the From impl, lines 29-33). -/
def extract_file (fuel : Nat) (data : List Nat) (file : File) :
    Res Error (List Nat) :=
  let ofs := file.offset
  if data.length < ofs + 30 then .crash
  else
    let hdr := (data.drop ofs).take 30
    if ¬ (data.take 4 = [0x50, 0x4b, 0x03, 0x04]) then .err .InvalidSignature
    else
      let compression_method := u16_le hdr 8
      let compressed_size := u32_le hdr 18
      let uncompressed_size := u32_le hdr 22
      let name_len := u16_le hdr 26
      let extra_len := u16_le hdr 28
      let ofs := ofs + 30 + name_len + extra_len
      if data.length < ofs + compressed_size then .crash
      else
        let compressed := (data.drop ofs).take compressed_size
        if compression_method = 0 then .ok compressed
        else if compression_method = 8 then
          match inflate fuel (List.replicate uncompressed_size 0) compressed with
          | .ok r => if r.2 ≠ uncompressed_size then .err .InvalidZip else .ok r.1
          | .err _ => .err .CompressionError
          | .crash => .crash
          | .spin => .spin
        else .err .InvalidCompressionMethod

end Zip

/-- Spec model for the bit stream: the little-endian value of the input
bytes.  Bit `n` of this number is bit `n` of the LSB-first bit stream over
`src`, and bits past the end of the buffer are zero, so
`(le_num src >>> bp) % 2 ^ count` is the value of the next `count` stream
bits at bit position `bp`. -/
def le_num : List Nat → Nat
  | [] => 0
  | b :: t => b + 256 * le_num t

/-- The lookup table produced for a length vector with no symbols present:
all head entries carry the INVALIDSYMBOL placeholder with length 1, the
secondary pool is untouched. -/
def zero_table : LookupTable :=
  fun i => if i < 512 then ⟨INVALIDSYMBOL, 1⟩ else ⟨0, 16⟩

/-- Spec model for claim C1: the byte-wise forward-copy semantics
`out[start + i] = out[start + i - distance]`, applied for i = 0 .. length-1
in increasing order (each read sees the writes of earlier iterations). -/
def forward_copy_spec (dst : List Nat) (start distance : Nat) : Nat → List Nat
  | 0 => dst
  | n + 1 =>
    let prev := forward_copy_spec dst start distance n
    prev.set (start + n) (prev.getD (start + n - distance) 0)

/-- Agreement of two `ihb_iter` outcomes started from destination buffers
that agree below the write pointer: both take the same branch, advance the
pointers identically, and the buffers still agree below the new pointer. -/
inductive StepAgree (dptr : Nat) : Res Error LoopStep → Res Error LoopStep → Prop where
  | next : ∀ a1 a2 p s, dptr ≤ p → p ≤ a1.length → a1.length = a2.length →
      (∀ j, j < p → a1[j]? = a2[j]?) →
      StepAgree dptr (.ok (.next a1 p s)) (.ok (.next a2 p s))
  | done : ∀ a1 a2 p s, p ≤ a1.length → a1.length = a2.length →
      (∀ j, j < p → a1[j]? = a2[j]?) →
      StepAgree dptr (.ok (.done a1 p s)) (.ok (.done a2 p s))
  | err : ∀ e, StepAgree dptr (.err e) (.err e)
  | crash : StepAgree dptr .crash .crash
  | spin : StepAgree dptr .spin .spin

/-- Agreement of two block-decoder outcomes (`inflate_huffman_block` or
`inflate_no_compression`): same error/panic/divergence, or both succeed
with the same pointers and buffers that agree below the write pointer. -/
inductive OutAgree : Res Error (List Nat × Nat × Nat) →
    Res Error (List Nat × Nat × Nat) → Prop where
  | ok : ∀ a1 a2 p s, p ≤ a1.length → a1.length = a2.length →
      (∀ j, j < p → a1[j]? = a2[j]?) → OutAgree (.ok (a1, p, s)) (.ok (a2, p, s))
  | err : ∀ e, OutAgree (.err e) (.err e)
  | crash : OutAgree .crash .crash
  | spin : OutAgree .spin .spin

/-- Agreement of two `inflate_step` outcomes: as `OutAgree`, with equal
final-block bits. -/
inductive StepOutAgree : Res Error ((List Nat × Nat × Nat) × Nat) →
    Res Error ((List Nat × Nat × Nat) × Nat) → Prop where
  | ok : ∀ a1 a2 p s b, p ≤ a1.length → a1.length = a2.length →
      (∀ j, j < p → a1[j]? = a2[j]?) →
      StepOutAgree (.ok ((a1, p, s), b)) (.ok ((a2, p, s), b))
  | err : ∀ e, StepOutAgree (.err e) (.err e)
  | crash : StepOutAgree .crash .crash
  | spin : StepOutAgree .spin .spin

/-- Observable agreement of two `inflate` results: both fail the same way
(error, panic or divergence), or both return the same produced length with
identical bytes up to that length. -/
def InflateAgree : Res Error (List Nat × Nat) → Res Error (List Nat × Nat) → Prop
  | .ok (o1, n1), .ok (o2, n2) => n1 = n2 ∧ o1.take n1 = o2.take n2
  | .err e1, .err e2 => e1 = e2
  | .crash, .crash => True
  | .spin, .spin => True
  | _, _ => False

/-! ### Theorems -/

example : reverse_bits 2 2 = 1 := by decide
example : reverse_bits 1 1 = 1 := by decide
example : show_bits 0 [0x01] 3 = .ok 1 := by decide
example : show_bits 8 [0x01] 3 = .err .Underflow := by decide

/-- Claim C3 (code_bug evidence): on the stored-block input
`01 01 00 FE FF 66` (LEN = 1, valid NLEN, one literal byte) with an empty
output buffer, `inflate` reaches the unchecked output write
`dst[*dptr..*dptr + len]` and panics instead of returning InvalidLength. -/
theorem claim_C3 :
    (inflate 2 [] [0x01, 0x01, 0x00, 0xfe, 0xff, 0x66]).isCrash = true := by decide

/-- Claim C8 (code_bug evidence): extract_file checks the archive prefix
rather than the local file header at the entry offset.  For an archive whose
first four bytes are the signature, the entry at offset 4 extracts
successfully even though the four bytes at that offset are not the
signature, where the claim demands InvalidSignature. -/
theorem claim_C8 :
    Zip.extract_file 1 ([0x50, 0x4b, 0x03, 0x04] ++ List.replicate 30 0) ⟨[], 4⟩ = .ok [] ∧
      (([0x50, 0x4b, 0x03, 0x04] ++ List.replicate 30 0).drop 4).take 4 ≠
        [0x50, 0x4b, 0x03, 0x04] := by decide

lemma le_num_nil : le_num [] = 0 := rfl

lemma le_num_cons (b : Nat) (t : List Nat) : le_num (b :: t) = b + 256 * le_num t := rfl

lemma getD_lt_256 (src : List Nat) (h : ∀ b ∈ src, b < 256) (i : Nat) :
    src.getD i 0 < 256 := by
  rcases Nat.lt_or_ge i src.length with hi | hi
  · rw [List.getD_eq_getElem?_getD, List.getElem?_eq_getElem hi]
    exact h _ (List.getElem_mem hi)
  · rw [List.getD_eq_default _ _ hi]
    omega

lemma le_num_cons_shiftRight (b : Nat) (t : List Nat) (hb : b < 256) :
    le_num (b :: t) >>> 8 = le_num t := by
  rw [le_num_cons, Nat.shiftRight_eq_div_pow]
  norm_num
  omega

lemma le_num_drop (src : List Nat) (h : ∀ b ∈ src, b < 256) (B : Nat) :
    le_num src >>> (8 * B) = le_num (src.drop B) := by
  induction B generalizing src with
  | zero => simp
  | succ n ih =>
    cases src with
    | nil => simp [le_num_nil]
    | cons b t =>
      have hb : b < 256 := h b (by simp)
      have ht : ∀ x ∈ t, x < 256 := fun x hx => h x (by simp [hx])
      rw [show 8 * (n + 1) = 8 + 8 * n by ring, Nat.shiftRight_add,
        le_num_cons_shiftRight b t hb, List.drop_succ_cons]
      exact ih t ht

lemma le_num_take_mod (m : Nat) (l : List Nat) (h : ∀ b ∈ l, b < 256) :
    le_num (l.take m) = le_num l % 2 ^ (8 * m) := by
  induction m generalizing l with
  | zero => simp [le_num_nil, Nat.mod_one]
  | succ n ih =>
    cases l with
    | nil => simp [le_num_nil]
    | cons b t =>
      have hb : b < 256 := h b (by simp)
      have ht : ∀ x ∈ t, x < 256 := fun x hx => h x (by simp [hx])
      rw [List.take_succ_cons, le_num_cons, le_num_cons, ih t ht]
      have hK : (0 : Nat) < 2 ^ (8 * n) := Nat.pos_pow_of_pos _ (by norm_num)
      have h2 : (2 : Nat) ^ (8 * (n + 1)) = 256 * 2 ^ (8 * n) := by
        rw [show 8 * (n + 1) = 8 + 8 * n by ring, pow_add]
        norm_num
      rw [h2]
      have hsplit : le_num t = 2 ^ (8 * n) * (le_num t / 2 ^ (8 * n)) + le_num t % 2 ^ (8 * n) :=
        (Nat.div_add_mod _ _).symm
      have hrw : b + 256 * le_num t =
          b + 256 * (le_num t % 2 ^ (8 * n)) + 256 * 2 ^ (8 * n) * (le_num t / 2 ^ (8 * n)) := by
        conv_lhs => rw [hsplit]
        ring
      have hlt : b + 256 * (le_num t % 2 ^ (8 * n)) < 256 * 2 ^ (8 * n) := by
        have := Nat.mod_lt (le_num t) hK
        omega
      rw [hrw, Nat.add_mul_mod_self_left, Nat.mod_eq_of_lt hlt]

lemma mod_shiftRight_mod (X N s c : Nat) (h : s + c ≤ N) :
    ((X % 2 ^ N) >>> s) % 2 ^ c = (X >>> s) % 2 ^ c := by
  apply Nat.eq_of_testBit_eq
  intro i
  simp only [Nat.testBit_mod_two_pow, Nat.testBit_shiftRight]
  by_cases hic : i < c
  · have hN : s + i < N := by omega
    simp [hic, hN]
  · simp [hic]

lemma shiftLeft_or_eq_add (x a k : Nat) (ha : a < 2 ^ k) :
    (x <<< k) ||| a = 2 ^ k * x + a := by
  apply Nat.eq_of_testBit_eq
  intro j
  rw [Nat.testBit_mul_pow_two_add x ha]
  simp only [Nat.testBit_or, Nat.testBit_shiftLeft]
  by_cases hj : j < k
  · simp [hj, show ¬ (j ≥ k) by omega]
  · have hb : a < 2 ^ j := lt_of_lt_of_le ha (Nat.pow_le_pow_right (by norm_num) (by omega))
    simp [hj, Nat.testBit_lt_two_pow hb, show j ≥ k by omega]

lemma three_bytes_or (b0 b1 b2 : Nat) (h0 : b0 < 256) (h1 : b1 < 256) :
    (b2 <<< 16) ||| (b1 <<< 8) ||| b0 = b0 + 256 * b1 + 65536 * b2 := by
  have e1 : (b2 <<< 16) ||| (b1 <<< 8) = 2 ^ 16 * b2 + (b1 <<< 8) := by
    refine shiftLeft_or_eq_add b2 (b1 <<< 8) 16 ?_
    rw [Nat.shiftLeft_eq]
    have h256 : (2 : Nat) ^ 8 = 256 := by norm_num
    have h65536 : (2 : Nat) ^ 16 = 65536 := by norm_num
    rw [h256, h65536]
    omega
  have e2 : 2 ^ 16 * b2 + (b1 <<< 8) = (2 ^ 8 * b2 + b1) <<< 8 := by
    rw [Nat.shiftLeft_eq, Nat.shiftLeft_eq]
    ring
  rw [e1, e2, shiftLeft_or_eq_add _ _ 8 (by norm_num; omega)]
  have h256 : (2 : Nat) ^ 8 = 256 := by norm_num
  rw [h256]
  ring

lemma two_bytes_or (b0 b1 : Nat) (h0 : b0 < 256) :
    (b1 <<< 8) ||| b0 = b0 + 256 * b1 := by
  rw [shiftLeft_or_eq_add b1 b0 8 (by norm_num; omega)]
  have h256 : (2 : Nat) ^ 8 = 256 := by norm_num
  rw [h256]
  ring

lemma getD_drop (l : List Nat) (B j : Nat) :
    (l.drop B).getD j 0 = l.getD (B + j) 0 := by
  simp [List.getD_eq_getElem?_getD, List.getElem?_drop]

lemma le_num_take_three (l : List Nat) :
    le_num (l.take 3) = l.getD 0 0 + 256 * l.getD 1 0 + 65536 * l.getD 2 0 := by
  match l with
  | [] => simp [le_num_nil]
  | [a] => simp [le_num_cons, le_num_nil, List.getD]
  | [a, b] => simp [le_num_cons, le_num_nil, List.getD]
  | a :: b :: c :: t =>
    show le_num [a, b, c] = a + 256 * b + 65536 * c
    simp [le_num_cons, le_num_nil]
    ring

lemma show_bits_core (src : List Nat) (h : ∀ b ∈ src, b < 256) (B s c : Nat)
    (hs : s ≤ 7) (hc : c ≤ 15) :
    (le_num ((src.drop B).take 3) >>> s) % 2 ^ c = (le_num src >>> (8 * B + s)) % 2 ^ c := by
  have hdrop : ∀ b ∈ src.drop B, b < 256 := fun b hb => h b (List.mem_of_mem_drop hb)
  rw [le_num_take_mod 3 _ hdrop, Nat.shiftRight_add, le_num_drop src h B]
  exact mod_shiftRight_mod _ (8 * 3) s c (by omega)

/-- Claim C4 (amended): `show_bits` fails with Underflow exactly when the
byte containing bit `bp` lies wholly beyond the input (`src.length ≤ bp / 8`,
that is, `8 * src.length ≤ bp`); otherwise it returns the next `count` bits
of the LSB-first stream, with bits beyond the end of the buffer read as
zero — hence exactly the requested bits whenever `bp + count ≤ 8 * src.length`.
It can succeed even when not all requested bits are present (see the
counterexample), which is what the original claim rules out. -/
theorem claim_C4 (bp count : Nat) (src : List Nat) (h : ∀ b ∈ src, b < 256)
    (h1 : 1 ≤ count) (h15 : count ≤ 15) :
    show_bits bp src count =
      if src.length ≤ bp >>> 3 then .err .Underflow
      else .ok ((le_num src >>> bp) % 2 ^ count) := by
  have hBdiv : bp >>> 3 = bp / 8 := by
    rw [Nat.shiftRight_eq_div_pow]
  have hs7 : bp &&& 7 = bp % 8 := by
    have h37 := Nat.and_pow_two_sub_one_eq_mod bp 3
    norm_num at h37
    exact h37
  have hbp : 8 * (bp >>> 3) + (bp &&& 7) = bp := by
    rw [hBdiv, hs7]
    omega
  have hmask : ∀ y : Nat, y &&& (1 <<< count - 1) = y % 2 ^ count := by
    intro y
    rw [Nat.shiftLeft_eq, one_mul, Nat.and_pow_two_sub_one_eq_mod]
  have hb0 := getD_lt_256 src h (bp >>> 3)
  have hb1 := getD_lt_256 src h (bp >>> 3 + 1)
  have hcore := show_bits_core src h (bp >>> 3) (bp &&& 7) count
    (by rw [hs7]; omega) h15
  rw [hbp] at hcore
  by_cases hA : bp >>> 3 + 2 < src.length
  · have hnotend : ¬ src.length ≤ bp >>> 3 := by omega
    simp only [show_bits]
    rw [if_pos hA, if_neg hnotend]
    simp only [Res.ok.injEq]
    rw [three_bytes_or _ _ _ hb0 hb1]
    have hchunk : src.getD (bp >>> 3) 0 + 256 * src.getD (bp >>> 3 + 1) 0 +
        65536 * src.getD (bp >>> 3 + 2) 0 = le_num ((src.drop (bp >>> 3)).take 3) := by
      rw [le_num_take_three, getD_drop, getD_drop, getD_drop]
      norm_num
    rw [hmask, hchunk]
    have h65536 : (65536 : Nat) = 2 ^ 16 := by norm_num
    rw [h65536, Nat.mod_mod_of_dvd _ (pow_dvd_pow 2 (by omega : count ≤ 16))]
    exact hcore
  · by_cases hB : bp >>> 3 + 1 < src.length
    · have hnotend : ¬ src.length ≤ bp >>> 3 := by omega
      simp only [show_bits]
      rw [if_neg hA, if_pos hB, if_neg hnotend]
      simp only [Res.ok.injEq]
      rw [two_bytes_or _ _ hb0]
      have hchunk : src.getD (bp >>> 3) 0 + 256 * src.getD (bp >>> 3 + 1) 0 =
          le_num ((src.drop (bp >>> 3)).take 3) := by
        rw [le_num_take_three, getD_drop, getD_drop, getD_drop]
        have hz : src.getD (bp >>> 3 + 2) 0 = 0 := List.getD_eq_default _ _ (by omega)
        rw [hz]
        norm_num
      rw [hmask, hchunk]
      exact hcore
    · by_cases hC : bp >>> 3 + 1 = src.length
      · have hnotend : ¬ src.length ≤ bp >>> 3 := by omega
        simp only [show_bits]
        rw [if_neg hA, if_neg hB, if_pos hC, if_neg hnotend]
        simp only [Res.ok.injEq]
        have hchunk : src.getD (bp >>> 3) 0 = le_num ((src.drop (bp >>> 3)).take 3) := by
          rw [le_num_take_three, getD_drop, getD_drop, getD_drop]
          have hz1 : src.getD (bp >>> 3 + 1) 0 = 0 := List.getD_eq_default _ _ (by omega)
          have hz2 : src.getD (bp >>> 3 + 2) 0 = 0 := List.getD_eq_default _ _ (by omega)
          rw [hz1, hz2]
          norm_num
        rw [hmask, hchunk]
        exact hcore
      · have hend : src.length ≤ bp >>> 3 := by omega
        simp only [show_bits]
        rw [if_neg hA, if_neg hB, if_neg hC, if_pos hend]

/-- Claim C4 witness: the amended characterization applied at bit position 3
of the two-byte input A5 5A with a 7-bit read. -/
theorem claim_C4_witness :
    show_bits 3 [0xa5, 0x5a] 7 =
      if ([0xa5, 0x5a] : List Nat).length ≤ 3 >>> 3 then .err .Underflow
      else .ok ((le_num [0xa5, 0x5a] >>> 3) % 2 ^ 7) :=
  claim_C4 3 7 [0xa5, 0x5a] (by decide) (by decide) (by decide)

/-- Claim C4 counterexample: at bit position 0 of the one-byte input 00, a
15-bit peek succeeds (returning the available bits zero-extended) although
only 8 bits remain, while the claim demands Underflow whenever
`bp + count > 8 * src.len()`. -/
theorem claim_C4_counterexample :
    show_bits 0 [0x00] 15 = .ok 0 ∧ 8 * ([0x00] : List Nat).length < 0 + 15 := by
  decide


lemma Res.ok_bind {ε α β : Type} (a : α) (f : α → Res ε β) :
    (Res.ok a : Res ε α) >>= f = f a := rfl

lemma Res.err_bind {ε α β : Type} (e : ε) (f : α → Res ε β) :
    (Res.err e : Res ε α) >>= f = .err e := rfl

lemma Res.crash_bind {ε α β : Type} (f : α → Res ε β) :
    (Res.crash : Res ε α) >>= f = .crash := rfl

lemma Res.spin_bind {ε α β : Type} (f : α → Res ε β) :
    (Res.spin : Res ε α) >>= f = .spin := rfl

/-- Claim C9: whenever the literal/length symbol decodes to a length code
(257..285) and the subsequent distance symbol decodes to 30 or more — and
symbols 30 and 31 are constructible, because the fixed distance tree assigns
5-bit codes to all 32 distance symbols — inflate_huffman_block returns
InvalidDistance via the failed DIST_INFO lookup. -/
theorem claim_C9 (fuel : Nat) (dst : List Nat) (dptr : Nat) (src : List Nat)
    (sptr : Nat) (t_ll t_d : LookupTable) (c s1 : Nat) (info : Nat × Nat)
    (e s2 d s3 : Nat)
    (hc : read_symbol src sptr t_ll = .ok (c, s1))
    (hc1 : 257 ≤ c) (hc2 : c ≤ 285)
    (hinfo : CODE_INFO.get? (c - 257) = some info)
    (he : read_bits src s1 info.1 = .ok (e, s2))
    (hd : read_symbol src s2 t_d = .ok (d, s3))
    (hd30 : 30 ≤ d) :
    inflate_huffman_block (fuel + 1) dst dptr src sptr t_ll t_d =
      .err .InvalidDistance := by
  have hnone : DIST_INFO.get? d = none :=
    List.get?_eq_none.mpr (by simp [DIST_INFO]; omega)
  have hiter : ihb_iter dst dptr src sptr t_ll t_d = .err .InvalidDistance := by
    simp only [ihb_iter, hc, Res.ok_bind]
    rw [if_neg (by omega : ¬ c ≤ 255), if_neg (by omega : ¬ c = 256),
      if_pos (by omega : c ≤ 285), hinfo]
    simp only [he, Res.ok_bind, hd]
    rw [if_neg (by omega : ¬ d = 0), hnone]
  simp only [inflate_huffman_block, hiter]

/-- Claim C9 witness: a length symbol (257) followed by distance symbol 30
produces InvalidDistance. -/
theorem claim_C9_witness :
    inflate_huffman_block 1 [] 0 [0, 0] 0 (fun _ => ⟨257, 1⟩) (fun _ => ⟨30, 1⟩) =
      .err .InvalidDistance :=
  claim_C9 0 [] 0 [0, 0] 0 (fun _ => ⟨257, 1⟩) (fun _ => ⟨30, 1⟩) 257 1 (0, 3) 0 1 30 2
    (by decide) (by decide) (by decide) (by decide) (by decide) (by decide) (by decide)

lemma Res.pure_eq {ε α : Type} (a : α) : (pure a : Res ε α) = .ok a := rfl

lemma foldl_fixed {α β : Type} (f : α → β → α) (l : List β) (a : α)
    (h : ∀ acc x, x ∈ l → f acc x = acc) : l.foldl f a = a := by
  induction l generalizing a with
  | nil => rfl
  | cons x t ih =>
    rw [List.foldl_cons, h a x (List.mem_cons_self x t)]
    exact ih a fun acc y hy => h acc y (List.mem_cons_of_mem x hy)

lemma show_bits_ok_lt (bp : Nat) (src : List Nat) (hbp : bp >>> 3 < src.length) :
    ∃ v, show_bits bp src 9 = .ok v ∧ v < 512 := by
  have hmask : ∀ y : Nat, y &&& (1 <<< 9 - 1) < 512 := by
    intro y
    have : y &&& (1 <<< 9 - 1) ≤ 1 <<< 9 - 1 := Nat.and_le_right
    omega
  by_cases h2 : bp >>> 3 + 2 < src.length
  · exact ⟨_, by simp only [show_bits]; rw [if_pos h2], hmask _⟩
  · by_cases h1 : bp >>> 3 + 1 < src.length
    · exact ⟨_, by simp only [show_bits]; rw [if_neg h2, if_pos h1], hmask _⟩
    · have h0 : bp >>> 3 + 1 = src.length := by omega
      exact ⟨_, by simp only [show_bits]; rw [if_neg h2, if_neg h1, if_pos h0], hmask _⟩

lemma read_symbol_zero_table (src : List Nat) (sptr : Nat)
    (h : sptr >>> 3 < src.length) :
    read_symbol src sptr zero_table = .ok (INVALIDSYMBOL, sptr + 1) := by
  obtain ⟨v, hv, hlt⟩ := show_bits_ok_lt sptr src h
  have hz : zero_table v = ⟨INVALIDSYMBOL, 1⟩ := if_pos hlt
  simp only [read_symbol, hv, Res.ok_bind, hz]
  norm_num [FIRSTBITS]
  rfl

lemma histogram_ok_aux (l : List VarLenCode) (h : ∀ c ∈ l, c.len < 16) :
    ∀ cnt0, ∃ cnt, l.foldl histogram_step (.ok cnt0) = .ok cnt := by
  induction l with
  | nil => exact fun cnt0 => ⟨cnt0, rfl⟩
  | cons c t ih =>
    intro cnt0
    have hc : c.len < 16 := h c (List.mem_cons_self c t)
    have hstep : histogram_step (.ok cnt0) c =
        .ok (fun i => if i = c.len then cnt0 c.len + 1 else cnt0 i) := by
      simp [histogram_step, hc]
    rw [List.foldl_cons, hstep]
    exact ih (fun c hcm => h c (List.mem_cons_of_mem _ hcm)) _

lemma code_len_histogram_ok (l : List VarLenCode) (h : ∀ c ∈ l, c.len < 16) :
    ∃ cnt, code_len_histogram l = .ok cnt :=
  histogram_ok_aux l h _

lemma assign_replicate_zero (n : Nat) (acc : List VarLenCode) (nc : Nat → Nat) :
    (List.replicate n ⟨0, 0⟩).foldl assign_step (acc, nc) =
      (acc ++ List.replicate n ⟨0, 0⟩, nc) := by
  induction n generalizing acc with
  | zero => simp
  | succ m ih =>
    rw [List.replicate_succ, List.foldl_cons]
    have hstep : assign_step (acc, nc) ⟨0, 0⟩ = (acc ++ [⟨0, 0⟩], nc) := by
      simp [assign_step]
    rw [hstep, ih]
    simp

lemma generate_codes_replicate (n : Nat) :
    generate_codes (List.replicate n ⟨0, 0⟩) = .ok (List.replicate n ⟨0, 0⟩) := by
  obtain ⟨cnt, hcnt⟩ := code_len_histogram_ok (List.replicate n ⟨0, 0⟩)
    (by intro c hc; rw [List.eq_of_mem_replicate hc]; norm_num)
  simp only [generate_codes, hcnt, Res.ok_bind, assign_codes, assign_replicate_zero]
  rfl

lemma compute_maxlens_replicate (n : Nat) :
    compute_maxlens (List.replicate n ⟨0, 0⟩) = fun _ => 0 := by
  apply foldl_fixed
  intro m c hc
  rw [List.eq_of_mem_replicate hc]
  simp [maxlens_step, FIRSTBITS]

lemma fill_head_zero : fill_head_pointers (fun _ => 0) = ((fun _ => ⟨0, 16⟩), 512) := by
  apply foldl_fixed
  intro tp i _
  simp [head_step, FIRSTBITS]

lemma stamp_symbols_zero_entries (l : List (Nat × VarLenCode))
    (h : ∀ x ∈ l, (x.2 : VarLenCode).len = 0) (acc : Res Error (LookupTable × Nat)) :
    l.foldl stamp_step acc = acc := by
  apply foldl_fixed
  intro a x hx
  have h0 := h x hx
  cases a with
  | ok tn => simp [stamp_step, h0]
  | err e => rfl
  | crash => rfl
  | spin => rfl

lemma stamp_symbols_replicate (n : Nat) (t : LookupTable) :
    stamp_symbols (List.replicate n ⟨0, 0⟩) t = .ok (t, 0) := by
  apply stamp_symbols_zero_entries
  intro x hx
  rcases x with ⟨i, c⟩
  cases n with
  | zero => simp [List.enum_nil] at hx
  | succ m =>
    rw [List.replicate_succ, List.enum_cons] at hx
    rcases List.mem_cons.mp hx with h1 | h1
    · rw [show c = (⟨0, 0⟩ : VarLenCode) from congrArg Prod.snd h1]
    · have := (List.mem_enumFrom h1).2.2
      rw [this, List.getElem_replicate]

lemma make_lookup_table_zero (n : Nat) :
    make_lookup_table (List.replicate n ⟨0, 0⟩) = .ok zero_table := by
  simp only [make_lookup_table, generate_codes_replicate n, Res.ok_bind,
    compute_maxlens_replicate, fill_head_zero, stamp_symbols_replicate]
  norm_num
  rfl

lemma or_masked_lt (y : Nat) : ((y &&& 255) <<< 8) ||| ((y >>> 8) &&& 255) < 2 ^ 16 := by
  apply Nat.or_lt_two_pow
  · have h1 : y &&& 255 ≤ 255 := Nat.and_le_right
    rw [Nat.shiftLeft_eq]
    norm_num
    omega
  · have h2 : (y >>> 8) &&& 255 ≤ 255 := Nat.and_le_right
    norm_num
    omega

lemma shiftRight_lt_two_pow (z n : Nat) (hz : z < 2 ^ 16) (h16 : n ≤ 16) :
    z >>> (16 - n) < 2 ^ n := by
  rw [Nat.shiftRight_eq_div_pow]
  rw [Nat.div_lt_iff_lt_mul (Nat.pos_pow_of_pos _ (by norm_num))]
  have : (2 : Nat) ^ n * 2 ^ (16 - n) = 2 ^ 16 := by
    rw [← pow_add]
    congr 1
    omega
  omega

lemma reverse_bits_lt (x n : Nat) (h16 : n ≤ 16) : reverse_bits x n < 2 ^ n := by
  simp only [reverse_bits]
  exact shiftRight_lt_two_pow _ n (or_masked_lt _) h16

lemma generate_codes_one (a l b : Nat) (h1 : 1 ≤ l) (h15 : l ≤ 15) :
    ∃ c0, generate_codes (List.replicate a ⟨0, 0⟩ ++ ⟨0, l⟩ :: List.replicate b ⟨0, 0⟩) =
      .ok (List.replicate a ⟨0, 0⟩ ++ ⟨c0, l⟩ :: List.replicate b ⟨0, 0⟩) ∧ c0 < 2 ^ l := by
  have hlen : ∀ c ∈ List.replicate a (⟨0, 0⟩ : VarLenCode) ++ ⟨0, l⟩ :: List.replicate b ⟨0, 0⟩,
      c.len < 16 := by
    intro c hc
    rcases List.mem_append.mp hc with h | h
    · rw [List.eq_of_mem_replicate h]; norm_num
    · rcases List.mem_cons.mp h with h | h
      · rw [h]
        show l < 16
        omega
      · rw [List.eq_of_mem_replicate h]; norm_num
  obtain ⟨cnt, hcnt⟩ := code_len_histogram_ok _ hlen
  refine ⟨reverse_bits (next_code_fn cnt l) l, ?_, reverse_bits_lt _ _ (by omega)⟩
  simp only [generate_codes, hcnt, Res.ok_bind, assign_codes]
  rw [List.foldl_append, assign_replicate_zero, List.foldl_cons]
  simp only [List.nil_append]
  have hstep : assign_step (List.replicate a ⟨0, 0⟩, next_code_fn cnt) ⟨0, l⟩ =
      (List.replicate a ⟨0, 0⟩ ++ [⟨reverse_bits (next_code_fn cnt l) l, l⟩],
       fun i => if i = l then (next_code_fn cnt l + 1) % 65536 else next_code_fn cnt i) := by
    simp [assign_step, show ¬ l = 0 by omega]
  rw [hstep, assign_replicate_zero]
  simp [Res.pure_eq, List.append_assoc]

lemma compute_maxlens_one_short (a l b c0 : Nat) (hl : l ≤ 9) :
    compute_maxlens (List.replicate a ⟨0, 0⟩ ++ ⟨c0, l⟩ :: List.replicate b ⟨0, 0⟩) =
      fun _ => 0 := by
  apply foldl_fixed
  intro m c hc
  have hcl : c.len ≤ 9 := by
    rcases List.mem_append.mp hc with h | h
    · rw [List.eq_of_mem_replicate h]; norm_num
    · rcases List.mem_cons.mp h with h | h
      · rw [h]; exact hl
      · rw [List.eq_of_mem_replicate h]; norm_num
  simp [maxlens_step, FIRSTBITS, hcl]

lemma compute_maxlens_one_long (a l b c0 : Nat) (hl : 9 < l) :
    compute_maxlens (List.replicate a ⟨0, 0⟩ ++ ⟨c0, l⟩ :: List.replicate b ⟨0, 0⟩) =
      fun i => if i = (c0 &&& 511) then l else 0 := by
  unfold compute_maxlens
  rw [List.foldl_append, List.foldl_cons]
  have hA : (List.replicate a (⟨0, 0⟩ : VarLenCode)).foldl maxlens_step (fun _ => 0) =
      fun _ => 0 := by
    apply foldl_fixed
    intro m c hc
    rw [List.eq_of_mem_replicate hc]
    simp [maxlens_step, FIRSTBITS]
  rw [hA]
  have hstep : maxlens_step (fun _ => 0) ⟨c0, l⟩ = fun i => if i = (c0 &&& 511) then l else 0 := by
    simp only [maxlens_step, FIRSTBITS]
    rw [if_neg (by omega : ¬ l ≤ 9)]
    funext i
    simp
  rw [hstep]
  apply foldl_fixed
  intro m c hc
  rw [List.eq_of_mem_replicate hc]
  simp [maxlens_step, FIRSTBITS]

lemma fill_head_single (p l : Nat) (hp : p < 512) (hl : 9 < l) :
    fill_head_pointers (fun i => if i = p then l else 0) =
      ((fun j => if j = p then ⟨512, l⟩ else ⟨0, 16⟩), 512 + (1 <<< (l - 9))) := by
  have H : ∀ N, N ≤ 512 →
      (List.range N).foldl (head_step (fun i => if i = p then l else 0))
        ((fun _ => ⟨0, 16⟩), 512) =
      if N ≤ p then ((fun _ => ⟨0, 16⟩), 512)
      else ((fun j => if j = p then ⟨512, l⟩ else ⟨0, 16⟩), 512 + (1 <<< (l - 9))) := by
    intro N
    induction N with
    | zero => intro _; simp
    | succ m ih =>
      intro hm
      rw [List.range_succ, List.foldl_append, ih (by omega), List.foldl_cons, List.foldl_nil]
      by_cases hmp : m < p
      · rw [if_pos (by omega : m ≤ p), if_pos (by omega : m + 1 ≤ p)]
        simp [head_step, FIRSTBITS, show m ≠ p by omega]
      · by_cases hmeq : m = p
        · subst hmeq
          rw [if_pos (le_refl m), if_neg (by omega : ¬ m + 1 ≤ m)]
          simp [head_step, FIRSTBITS, show ¬ l ≤ 9 by omega]
        · rw [if_neg (by omega : ¬ m ≤ p), if_neg (by omega : ¬ m + 1 ≤ p)]
          simp [head_step, FIRSTBITS, show m ≠ p by omega]
  have := H 512 (le_refl _)
  rw [if_neg (by omega : ¬ 512 ≤ p)] at this
  exact this

lemma stamp_short_fresh (t : LookupTable) (i : Nat) (c : VarLenCode)
    (h9 : c.len ≤ 9) (hcode : c.code < 2 ^ c.len)
    (hfresh : ∀ k, (t k).len = 16) :
    ∃ t2, stamp_short t i c = .ok t2 := by
  have hpow : 2 ^ c.len * (1 <<< (9 - c.len)) = 512 := by
    rw [Nat.shiftLeft_eq, one_mul, ← pow_add]
    rw [show c.len + (9 - c.len) = 9 by omega]
    norm_num
  have H : ∀ m, m ≤ 1 <<< (9 - c.len) →
      ∃ t2, (List.range m).foldl (stamp_short_step i c) (.ok t) = .ok t2 ∧
        ∀ k, (∀ j, j < m → k ≠ c.code + 2 ^ c.len * j) → t2 k = t k := by
    intro m
    induction m with
    | zero => exact fun _ => ⟨t, rfl, fun k _ => rfl⟩
    | succ m ih =>
      intro hm
      obtain ⟨t2, hfold, hagree⟩ := ih (by omega)
      rw [List.range_succ, List.foldl_append, hfold, List.foldl_cons, List.foldl_nil]
      have hidx : c.code ||| (m <<< c.len) = c.code + 2 ^ c.len * m := by
        rw [Nat.lor_comm, shiftLeft_or_eq_add m c.code c.len hcode]
        omega
      have hlt : c.code + 2 ^ c.len * m < 512 := by
        have hmul : 2 ^ c.len * (m + 1) ≤ 2 ^ c.len * (1 <<< (9 - c.len)) :=
          Nat.mul_le_mul_left _ hm
      
        have hstep1 : c.code + 2 ^ c.len * m < 2 ^ c.len * (m + 1) := by
          have hms : 2 ^ c.len * (m + 1) = 2 ^ c.len * m + 2 ^ c.len := by ring
          omega
        omega
      have hfree : t2 (c.code + 2 ^ c.len * m) = t (c.code + 2 ^ c.len * m) := by
        apply hagree
        intro j hj
        intro hcontr
        have hD : (0 : Nat) < 2 ^ c.len := Nat.pos_pow_of_pos _ (by norm_num)
        have : j = m := by
          have := Nat.eq_of_mul_eq_mul_left hD
            (show 2 ^ c.len * j = 2 ^ c.len * m by omega)
          exact this
        omega
      have hstep : stamp_short_step i c (.ok t2) m =
          .ok (fun k => if k = c.code + 2 ^ c.len * m then ⟨i, c.len⟩ else t2 k) := by
        simp only [stamp_short_step, hidx]
        rw [if_pos (by omega : c.code + 2 ^ c.len * m < 1024)]
        rw [hfree, hfresh]
        simp
      rw [hstep]
      refine ⟨_, rfl, ?_⟩
      intro k hk
      have hkm : k ≠ c.code + 2 ^ c.len * m := hk m (by omega)
      simp only [if_neg hkm]
      exact hagree k fun j hj => hk j (by omega)
  obtain ⟨t2, hfold, _⟩ := H (1 <<< (9 - c.len)) (le_refl _)
  exact ⟨t2, by simp only [stamp_short, FIRSTBITS]; exact hfold⟩

lemma stamp_long_single (t : LookupTable) (i : Nat) (c : VarLenCode) (hl : 9 < c.len)
    (hl15 : c.len ≤ 15) (hcode : c.code < 2 ^ c.len)
    (ht : t (c.code &&& 511) = ⟨512, c.len⟩) :
    ∃ t2, stamp_long t i c = .ok t2 := by
  simp only [stamp_long, ht]
  rw [if_neg (by omega : ¬ c.len < c.len)]
  have hnum : (1 : Nat) <<< ((c.len - FIRSTBITS) - (c.len - FIRSTBITS)) = 1 := by
    simp [FIRSTBITS]
  rw [hnum]
  rw [show List.range 1 = [0] from rfl, List.foldl_cons, List.foldl_nil]
  have hidx2 : 512 + ((c.code >>> FIRSTBITS) ||| (0 <<< (c.len - FIRSTBITS))) < 1024 := by
    rw [Nat.zero_shiftLeft, Nat.or_zero]
    have hsh : c.code >>> FIRSTBITS < 64 := by
      simp only [FIRSTBITS]
      rw [Nat.shiftRight_eq_div_pow]
      rw [Nat.div_lt_iff_lt_mul (by norm_num : (0:Nat) < 2 ^ 9)]
      have hle : (2 : Nat) ^ c.len ≤ 2 ^ 15 := Nat.pow_le_pow_right (by norm_num) hl15
      norm_num
      omega
    omega
  simp only [stamp_long_step]
  rw [if_pos hidx2]
  exact ⟨_, rfl⟩

lemma enumFrom_replicate_snd (k n : Nat) (x : Nat × VarLenCode)
    (hx : x ∈ List.enumFrom k (List.replicate n ⟨0, 0⟩)) : x.2 = ⟨0, 0⟩ := by
  rcases x with ⟨i, c⟩
  have h := List.mem_enumFrom hx
  rw [h.2.2, List.getElem_replicate]

lemma stamp_symbols_one_eq (a b : Nat) (s : VarLenCode) (t : LookupTable)
    (t2 : LookupTable) (hs0 : ¬ s.len = 0)
    (hstamp : (if s.len ≤ FIRSTBITS then stamp_short t a s else stamp_long t a s) = .ok t2) :
    stamp_symbols (List.replicate a ⟨0, 0⟩ ++ s :: List.replicate b ⟨0, 0⟩) t =
      .ok (t2, 1) := by
  unfold stamp_symbols
  rw [List.enum_append, List.length_replicate, List.enumFrom_cons,
    List.foldl_append, List.foldl_cons]
  have hA : (List.replicate a (⟨0, 0⟩ : VarLenCode)).enum.foldl stamp_step (.ok (t, 0)) =
      .ok (t, 0) :=
    stamp_symbols_zero_entries _
      (fun x hx => by
        have : x.2 = ⟨0, 0⟩ := enumFrom_replicate_snd 0 a x hx
        rw [this]) _
  rw [hA]
  have hstep : stamp_step (.ok (t, 0)) (a, s) = .ok (t2, 1) := by
    by_cases hle : s.len ≤ FIRSTBITS
    · rw [if_pos hle] at hstamp
      simp [stamp_step, hs0, hle, hstamp]
    · rw [if_neg hle] at hstamp
      simp [stamp_step, hs0, hle, hstamp]
  rw [hstep]
  exact stamp_symbols_zero_entries _
    (fun x hx => by
      have : x.2 = ⟨0, 0⟩ := enumFrom_replicate_snd (a + 1) b x hx
      rw [this]) _

lemma make_lookup_table_one (a l b : Nat) (h1 : 1 ≤ l) (h15 : l ≤ 15) :
    ∃ t, make_lookup_table
      (List.replicate a ⟨0, 0⟩ ++ ⟨0, l⟩ :: List.replicate b ⟨0, 0⟩) = .ok t := by
  obtain ⟨c0, hgen, hc0⟩ := generate_codes_one a l b h1 h15
  by_cases hl9 : l ≤ 9
  · obtain ⟨t2, hstamp⟩ := stamp_short_fresh (fun _ => ⟨0, 16⟩) a ⟨c0, l⟩ hl9 hc0
      (fun _ => rfl)
    have hss := stamp_symbols_one_eq a b ⟨c0, l⟩ (fun _ => ⟨0, 16⟩) t2
      (by show ¬ l = 0; omega)
      (by rw [if_pos (by show l ≤ 9; exact hl9)]; exact hstamp)
    simp only [make_lookup_table, hgen, Res.ok_bind, compute_maxlens_one_short a l b c0 hl9,
      fill_head_zero, hss]
    norm_num
    exact ⟨_, rfl⟩
  · have hp : (c0 &&& 511) < 512 := by
      have := Nat.and_le_right (n := c0) (m := 511)
      omega
    obtain ⟨t2, hstamp⟩ := stamp_long_single
      (fun j => if j = (c0 &&& 511) then ⟨512, l⟩ else ⟨0, 16⟩) a ⟨c0, l⟩
      (by show 9 < l; omega) (by show l ≤ 15; omega) hc0 (by simp)
    have hss := stamp_symbols_one_eq a b ⟨c0, l⟩
      (fun j => if j = (c0 &&& 511) then ⟨512, l⟩ else ⟨0, 16⟩) t2
      (by show ¬ l = 0; omega)
      (by rw [if_neg (by show ¬ l ≤ 9; omega)]; exact hstamp)
    simp only [make_lookup_table, hgen, Res.ok_bind,
      compute_maxlens_one_long a l b c0 (by omega),
      fill_head_single (c0 &&& 511) l hp (by omega), hss]
    norm_num
    exact ⟨_, rfl⟩

/-- Claim C7 (amended): lookup-table construction succeeds on the two
trivial length vectors: every all-zero vector yields the INVALIDSYMBOL-
filled table `zero_table`, and every vector with exactly one nonzero length
(of any position and any length 1..15) builds successfully.  Against the
zero-symbol table every symbol decode returns the INVALIDSYMBOL sentinel,
which the block decoder surfaces as InvalidSymbol when the table is the
literal/length tree and as InvalidDistance when it is the distance tree.
(For a one-symbol table a decode may instead return the present symbol
without error — see the counterexample — so the original "every decode
fails" does not hold there.) -/
theorem claim_C7 :
    (∀ n, make_lookup_table (List.replicate n ⟨0, 0⟩) = .ok zero_table) ∧
    (∀ a l b, 1 ≤ l → l ≤ 15 →
      ∃ t, make_lookup_table
        (List.replicate a ⟨0, 0⟩ ++ ⟨0, l⟩ :: List.replicate b ⟨0, 0⟩) = .ok t) ∧
    (∀ src sptr, sptr >>> 3 < src.length →
      read_symbol src sptr zero_table = .ok (INVALIDSYMBOL, sptr + 1)) ∧
    (∀ fuel dst dptr src sptr t_d, sptr >>> 3 < src.length →
      inflate_huffman_block (fuel + 1) dst dptr src sptr zero_table t_d =
        .err .InvalidSymbol) ∧
    (∀ fuel dst dptr src sptr t_ll c s1 info e s2,
      read_symbol src sptr t_ll = .ok (c, s1) → 257 ≤ c → c ≤ 285 →
      CODE_INFO.get? (c - 257) = some info → read_bits src s1 info.1 = .ok (e, s2) →
      s2 >>> 3 < src.length →
      inflate_huffman_block (fuel + 1) dst dptr src sptr t_ll zero_table =
        .err .InvalidDistance) := by
  refine ⟨make_lookup_table_zero, make_lookup_table_one, read_symbol_zero_table, ?_, ?_⟩
  · intro fuel dst dptr src sptr t_d h
    have hrs := read_symbol_zero_table src sptr h
    have hiter : ihb_iter dst dptr src sptr zero_table t_d = .err .InvalidSymbol := by
      simp only [ihb_iter, hrs, Res.ok_bind]
      rw [if_neg (by norm_num [INVALIDSYMBOL]), if_neg (by norm_num [INVALIDSYMBOL]),
        if_neg (by norm_num [INVALIDSYMBOL])]
    simp only [inflate_huffman_block, hiter]
  · intro fuel dst dptr src sptr t_ll c s1 info e s2 hc hc1 hc2 hinfo he h2
    have hrs := read_symbol_zero_table src s2 h2
    have hnone : DIST_INFO.get? INVALIDSYMBOL = none :=
      List.get?_eq_none.mpr (by simp [DIST_INFO, INVALIDSYMBOL])
    have hiter : ihb_iter dst dptr src sptr t_ll zero_table = .err .InvalidDistance := by
      simp only [ihb_iter, hc, Res.ok_bind]
      rw [if_neg (by omega : ¬ c ≤ 255), if_neg (by omega : ¬ c = 256),
        if_pos (by omega : c ≤ 285), hinfo]
      simp only [he, Res.ok_bind, hrs]
      rw [if_neg (by norm_num [INVALIDSYMBOL]), hnone]
    simp only [inflate_huffman_block, hiter]

/-- Claim C7 witness: the amended statement applied at concrete inputs: the
32-entry all-zero vector, a one-symbol vector, a concrete sentinel decode,
and concrete decoder error surfacing for both trees. -/
theorem claim_C7_witness :
    make_lookup_table (List.replicate 32 ⟨0, 0⟩) = .ok zero_table ∧
    (∃ t, make_lookup_table
      (List.replicate 0 ⟨0, 0⟩ ++ ⟨0, 1⟩ :: List.replicate 31 ⟨0, 0⟩) = .ok t) ∧
    read_symbol [0] 0 zero_table = .ok (INVALIDSYMBOL, 1) ∧
    inflate_huffman_block 1 [] 0 [0] 0 zero_table zero_table = .err .InvalidSymbol ∧
    inflate_huffman_block 1 [] 0 [0, 0] 0 (fun _ => ⟨257, 1⟩) zero_table =
      .err .InvalidDistance := by
  obtain ⟨h1, h2, h3, h4, h5⟩ := claim_C7
  exact ⟨h1 32, h2 0 1 31 (by decide) (by decide), h3 [0] 0 (by decide),
    h4 0 [] 0 [0] 0 zero_table (by decide),
    h5 0 [] 0 [0, 0] 0 (fun _ => ⟨257, 1⟩) 257 1 (0, 3) 0 1 (by decide) (by decide)
      (by decide) (by decide) (by decide) (by decide)⟩

/-- Claim C7 counterexample: for a one-symbol table (a 32-entry vector whose
single present symbol 0 has length 1) the decode of a matching bit pattern
returns that symbol (0 — for a distance tree a perfectly valid-looking
code) with no error, while the claim demands that every symbol decode
against a trivial table end in a defined error. -/
theorem claim_C7_counterexample :
    (make_lookup_table (⟨0, 1⟩ :: List.replicate 31 ⟨0, 0⟩)).isOk = true ∧
    read_symbol [0] 0
      ((make_lookup_table (⟨0, 1⟩ :: List.replicate 31 ⟨0, 0⟩)).getOr (fun _ => ⟨0, 0⟩)) =
      .ok (0, 1) := by decide

/-- Claim C5 (code_bug evidence): a dynamic header whose final zero-run ends
exactly at HLIT + HDIST is rejected with InvalidData by the repeat guard
`ptr + len >= count`, although RFC 1951 accepts runs that end exactly at the
boundary (the guard should be strictly greater).  The input encodes
HLIT = 257, HDIST = 3, a meta tree with lengths 1/2/2 for symbols 1/17/18,
then: length 1 for literal 0, two 18-runs of 138 and 117 zeros, length 1 for
symbol 256 (so the end-of-block marker is present), and a 17-run of exactly
the last 3 zeros (the distance lengths).  With the RFC guard the header
parses into valid tables; the code returns InvalidData. -/
theorem claim_C5 :
    (read_encoded_luts 400
      [0x40, 0x38, 0x24, 0x00, 0x00, 0x00, 0x00, 0x00, 0xe2, 0xff, 0x6a, 0x01]
      0).errOf = some .InvalidData := by decide

lemma write_seq_length (dst : List Nat) (d : Nat) (vs : List Nat)
    (h : d + vs.length ≤ dst.length) : (write_seq dst d vs).length = dst.length := by
  simp [write_seq]
  omega

lemma write_seq_getElem (dst : List Nat) (d : Nat) (vs : List Nat)
    (h : d + vs.length ≤ dst.length) (j : Nat) :
    (write_seq dst d vs)[j]? =
      if d ≤ j ∧ j < d + vs.length then vs[j - d]? else dst[j]? := by
  unfold write_seq
  have hdlen : (dst.take d).length = d := by
    rw [List.length_take]
    omega
  have hlen2 : (dst.take d ++ vs).length = d + vs.length := by
    rw [List.length_append, hdlen]
  rw [List.getElem?_append, hlen2]
  by_cases h0 : j < d + vs.length
  · rw [if_pos h0, List.getElem?_append, hdlen]
    by_cases h1 : j < d
    · rw [if_pos h1, if_neg (by omega : ¬ (d ≤ j ∧ j < d + vs.length)),
        List.getElem?_take, if_pos h1]
    · rw [if_neg h1, if_pos (by omega : d ≤ j ∧ j < d + vs.length)]
  · rw [if_neg h0, if_neg (by omega : ¬ (d ≤ j ∧ j < d + vs.length)), List.getElem?_drop]
    congr 1
    omega

lemma getD_congr_of_getElem (l1 l2 : List Nat) (p : Nat) (h : l1[p]? = l2[p]?) :
    l1.getD p 0 = l2.getD p 0 := by
  rw [List.getD_eq_getElem?_getD, List.getD_eq_getElem?_getD, h]

lemma forward_copy_spec_spec (dst : List Nat) (start distance : Nat)
    (hd : 1 ≤ distance) (hds : distance ≤ start) :
    ∀ n, start + n ≤ dst.length →
      (forward_copy_spec dst start distance n).length = dst.length ∧
      ∀ j, (forward_copy_spec dst start distance n)[j]? =
        if start ≤ j ∧ j < start + n then
          some (dst.getD (start - distance + (j - start) % distance) 0)
        else dst[j]? := by
  intro n
  induction n with
  | zero =>
    intro _
    refine ⟨rfl, fun j => ?_⟩
    rw [if_neg (by omega : ¬ (start ≤ j ∧ j < start + 0))]
    rfl
  | succ n ih =>
    intro hlen
    obtain ⟨ihlen, ihget⟩ := ih (by omega)
    have hval : (forward_copy_spec dst start distance n).getD (start + n - distance) 0 =
        dst.getD (start - distance + n % distance) 0 := by
      by_cases hnd : n < distance
      · have hq : start + n - distance < start := by omega
        have := ihget (start + n - distance)
        rw [if_neg (by omega :
          ¬ (start ≤ start + n - distance ∧ start + n - distance < start + n))] at this
        rw [getD_congr_of_getElem _ _ _ this]
        have hmodn : n % distance = n := Nat.mod_eq_of_lt hnd
        congr 1
        omega
      · have hmem := ihget (start + (n - distance))
        rw [if_pos (by
          refine ⟨by omega, by omega⟩ :
            start ≤ start + (n - distance) ∧ start + (n - distance) < start + n)] at hmem
        have harg : start + n - distance = start + (n - distance) := by omega
        rw [harg, List.getD_eq_getElem?_getD, hmem]
        have hmod : (start + (n - distance) - start) % distance = n % distance := by
          rw [show start + (n - distance) - start = n - distance by omega]
          conv_rhs => rw [show n = (n - distance) + distance by omega]
          rw [Nat.add_mod_right]
        rw [hmod]
        rfl
    constructor
    · show ((forward_copy_spec dst start distance n).set _ _).length = dst.length
      rw [List.length_set, ihlen]
    · intro j
      show ((forward_copy_spec dst start distance n).set (start + n) _)[j]? = _
      rw [List.getElem?_set]
      by_cases hj : start + n = j
      · rw [if_pos hj,
          if_pos (by rw [ihlen]; omega :
            start + n < (forward_copy_spec dst start distance n).length)]
        rw [if_pos (by omega : start ≤ j ∧ j < start + (n + 1))]
        rw [hval]
        subst hj
        rw [show start + n - start = n from by omega]
      · rw [if_neg hj, ihget j]
        by_cases hin : start ≤ j ∧ j < start + n
        · rw [if_pos hin, if_pos (by omega : start ≤ j ∧ j < start + (n + 1))]
        · rw [if_neg hin, if_neg (by omega : ¬ (start ≤ j ∧ j < start + (n + 1)))]

lemma getElem_eq_some_getD (l : List Nat) (p : Nat) (hp : p < l.length) :
    l[p]? = some (l.getD p 0) := by
  rw [List.getD_eq_getElem?_getD, List.getElem?_eq_getElem hp]
  rfl

lemma copy_within_length (dst : List Nat) (s e d : Nat) (hse : s ≤ e)
    (he : e ≤ dst.length) (hd : d + (e - s) ≤ dst.length) :
    (copy_within dst s e d).length = dst.length := by
  unfold copy_within
  have hslice : ((dst.drop s).take (e - s)).length = e - s := by
    rw [List.length_take, List.length_drop]
    omega
  rw [write_seq_length _ _ _ (by rw [hslice]; omega)]

lemma copy_within_getElem (dst : List Nat) (s e d : Nat) (hse : s ≤ e)
    (he : e ≤ dst.length) (hd : d + (e - s) ≤ dst.length) (j : Nat) :
    (copy_within dst s e d)[j]? =
      if d ≤ j ∧ j < d + (e - s) then dst[s + (j - d)]? else dst[j]? := by
  unfold copy_within
  have hslice : ((dst.drop s).take (e - s)).length = e - s := by
    rw [List.length_take, List.length_drop]
    omega
  rw [write_seq_getElem _ _ _ (by rw [hslice]; omega) j, hslice]
  by_cases hin : d ≤ j ∧ j < d + (e - s)
  · rw [if_pos hin, if_pos hin, List.getElem?_take, if_pos (by omega : j - d < e - s),
      List.getElem?_drop]
  · rw [if_neg hin, if_neg hin]

lemma stride_loop_spec (dst : List Nat) (start distance : Nat) (hd : 1 ≤ distance)
    (hds : distance ≤ start) :
    ∀ k (dst0 : List Nat) q, start ≤ q → q + k * distance ≤ dst0.length →
      (∀ j, j < start → dst0[j]? = dst[j]?) →
      (stride_loop dst0 start distance q k).length = dst0.length ∧
      ∀ j, (stride_loop dst0 start distance q k)[j]? =
        if q ≤ j ∧ j < q + k * distance then
          some (dst.getD (start - distance + (j - q) % distance) 0)
        else dst0[j]? := by
  intro k
  induction k with
  | zero =>
    intro dst0 q hq hlen hagree
    refine ⟨rfl, fun j => ?_⟩
    rw [if_neg (by omega : ¬ (q ≤ j ∧ j < q + 0 * distance))]
    rfl
  | succ k ih =>
    intro dst0 q hq hlen hagree
    have hkd : q + (k + 1) * distance = q + distance + k * distance := by
      rw [Nat.succ_mul]
      omega
    have hcwlen : (copy_within dst0 (start - distance) start q).length = dst0.length :=
      copy_within_length dst0 _ _ q (by omega) (by omega) (by omega)
    have hcwget := copy_within_getElem dst0 (start - distance) start q (by omega)
      (by omega) (by omega)
    have hwin : ∀ j, j < start →
        (copy_within dst0 (start - distance) start q)[j]? = dst[j]? := by
      intro j hj
      rw [hcwget j, if_neg (by omega : ¬ (q ≤ j ∧ j < q + (start - (start - distance))))]
      exact hagree j hj
    obtain ⟨ihlen, ihget⟩ := ih (copy_within dst0 (start - distance) start q)
      (q + distance) (by omega) (by rw [hcwlen]; omega) hwin
    have hunf : stride_loop dst0 start distance q (k + 1)
        = stride_loop (copy_within dst0 (start - distance) start q)
            start distance (q + distance) k := rfl
    rw [hunf]
    constructor
    · rw [ihlen, hcwlen]
    · intro j
      rw [ihget j]
      by_cases h1 : q + distance ≤ j ∧ j < q + distance + k * distance
      · rw [if_pos h1, if_pos (by omega : q ≤ j ∧ j < q + (k + 1) * distance)]
        congr 2
        have : j - q = (j - (q + distance)) + distance := by omega
        rw [this, Nat.add_mod_right]
      · rw [if_neg h1, hcwget j]
        by_cases h2 : q ≤ j ∧ j < q + (start - (start - distance))
        · rw [if_pos h2, if_pos (by omega : q ≤ j ∧ j < q + (k + 1) * distance)]
          have hpos : start - distance + (j - q) < start := by omega
          have hidx0 : start - distance + (j - q) < dst0.length := by omega
          have heq := hagree (start - distance + (j - q)) hpos
          have hjq : (j - q) % distance = j - q := Nat.mod_eq_of_lt (by omega)
          rw [hjq, heq, List.getD_eq_getElem?_getD, ← heq,
            List.getElem?_eq_getElem hidx0]
          rfl
        · rw [if_neg h2, if_neg (by omega : ¬ (q ≤ j ∧ j < q + (k + 1) * distance))]

lemma stride_copy_spec (dst : List Nat) (start distance length : Nat)
    (hd : 1 ≤ distance) (hds : distance ≤ start)
    (hlen : start + length ≤ dst.length) :
    (stride_copy dst start distance length).length = dst.length ∧
    ∀ j, (stride_copy dst start distance length)[j]? =
      if start ≤ j ∧ j < start + length then
        some (dst.getD (start - distance + (j - start) % distance) 0)
      else dst[j]? := by
  have hmul : length / distance * distance ≤ length := Nat.div_mul_le_self length distance
  have hrem : length % distance < distance := Nat.mod_lt _ (by omega)
  have hsplit : length / distance * distance + length % distance = length :=
    Nat.div_add_mod' length distance
  obtain ⟨hlooplen, hloopget⟩ := stride_loop_spec dst start distance hd hds
    (length / distance) dst start le_rfl (by omega) (fun j _ => rfl)
  have hcwlen := copy_within_length (stride_loop dst start distance start (length / distance))
    (start - distance) (start - distance + length % distance)
    (start + length / distance * distance) (by omega) (by rw [hlooplen]; omega)
    (by rw [hlooplen]; omega)
  have hcwget := copy_within_getElem (stride_loop dst start distance start (length / distance))
    (start - distance) (start - distance + length % distance)
    (start + length / distance * distance) (by omega) (by rw [hlooplen]; omega)
    (by rw [hlooplen]; omega)
  constructor
  · simp only [stride_copy]
    rw [hcwlen, hlooplen]
  · intro j
    simp only [stride_copy]
    rw [hcwget j]
    by_cases h1 : start + length / distance * distance ≤ j ∧
        j < start + length / distance * distance +
          (start - distance + length % distance - (start - distance))
    · rw [if_pos h1, hloopget, if_neg (by omega :
        ¬ (start ≤ start - distance + (j - (start + length / distance * distance)) ∧
           start - distance + (j - (start + length / distance * distance)) <
             start + length / distance * distance)),
        if_pos (by omega : start ≤ j ∧ j < start + length)]
      have hjs : j - start = (j - (start + length / distance * distance)) +
          length / distance * distance := by omega
      rw [hjs, Nat.add_mul_mod_self_right, Nat.mod_eq_of_lt (by omega :
        j - (start + length / distance * distance) < distance)]
      exact getElem_eq_some_getD dst _ (by omega)
    · rw [if_neg h1, hloopget j]
      by_cases h2 : start ≤ j ∧ j < start + length
      · rw [if_pos (by omega : start ≤ j ∧ j < start + length / distance * distance),
          if_pos h2]
      · rw [if_neg (by omega :
          ¬ (start ≤ j ∧ j < start + length / distance * distance)), if_neg h2]

/-- C1: Every validated length/distance back-reference writes the byte-wise
forward-copy semantics out[start+i] = out[start+i-distance].  Under the
source's own validation guards (distance at least 1 and at most the current
offset `start`, and `start + length` within the buffer), both realizations
in inflate_huffman_block — the stride copy (`length / distance` window
copies plus the `length % distance` tail, src/inflate.rs lines 403-412) and
the distance-1 fill with the preceding byte (lines 383-387) — produce
exactly the byte-wise forward copy. -/
theorem claim_C1 (dst : List Nat) (start distance length : Nat)
    (hd : 1 ≤ distance) (hds : distance ≤ start)
    (hlen : start + length ≤ dst.length) :
    stride_copy dst start distance length = forward_copy_spec dst start distance length ∧
    fill_range dst start length (dst.getD (start - 1) 0) =
      forward_copy_spec dst start 1 length := by
  constructor
  · refine List.ext_getElem? ?_
    intro j
    rw [(stride_copy_spec dst start distance length hd hds hlen).2 j,
      (forward_copy_spec_spec dst start distance hd hds length hlen).2 j]
  · refine List.ext_getElem? ?_
    intro j
    rw [(forward_copy_spec_spec dst start 1 le_rfl (by omega) length hlen).2 j]
    unfold fill_range
    rw [write_seq_getElem dst start (List.replicate length (dst.getD (start - 1) 0))
      (by rw [List.length_replicate]; omega) j, List.length_replicate]
    by_cases h : start ≤ j ∧ j < start + length
    · rw [if_pos h, if_pos h, List.getElem?_replicate, if_pos (by omega : j - start < length),
        Nat.mod_one, Nat.add_zero]
    · rw [if_neg h, if_neg h]

/-- Witness for claim_C1 at dst = [7,8,9,10,11,12], start 2, distance 2,
length 3. -/
theorem claim_C1_witness :
    stride_copy [7,8,9,10,11,12] 2 2 3 = forward_copy_spec [7,8,9,10,11,12] 2 2 3 ∧
    fill_range [7,8,9,10,11,12] 2 3 (([7,8,9,10,11,12] : List Nat).getD 1 0) =
      forward_copy_spec [7,8,9,10,11,12] 2 1 3 :=
  claim_C1 [7,8,9,10,11,12] 2 2 3 (by decide) (by decide) (by decide)

lemma set_agree (l1 l2 : List Nat) (i v : Nat) (hl : l1.length = l2.length)
    (ha : ∀ j, j < i → l1[j]? = l2[j]?) (hi : i < l1.length) :
    ∀ j, j < i + 1 → (l1.set i v)[j]? = (l2.set i v)[j]? := by
  intro j hj
  by_cases hij : i = j
  · subst hij
    rw [List.getElem?_set_self hi, List.getElem?_set_self (by omega)]
  · rw [List.getElem?_set_ne hij, List.getElem?_set_ne hij]
    exact ha j (by omega)

lemma fill_range_agree (l1 l2 : List Nat) (start len v : Nat)
    (hl : l1.length = l2.length) (ha : ∀ j, j < start → l1[j]? = l2[j]?)
    (hle : start + len ≤ l1.length) :
    ∀ j, j < start + len →
      (fill_range l1 start len v)[j]? = (fill_range l2 start len v)[j]? := by
  intro j hj
  unfold fill_range
  rw [write_seq_getElem _ _ _ (by rw [List.length_replicate]; omega) j,
    write_seq_getElem _ _ _ (by rw [List.length_replicate, ← hl]; omega) j,
    List.length_replicate]
  by_cases h : start ≤ j ∧ j < start + len
  · rw [if_pos h, if_pos h]
  · rw [if_neg h, if_neg h]
    exact ha j (by omega)

lemma stride_copy_agree (l1 l2 : List Nat) (start distance length : Nat)
    (hd : 1 ≤ distance) (hds : distance ≤ start) (hlen : start + length ≤ l1.length)
    (hl : l1.length = l2.length) (ha : ∀ j, j < start → l1[j]? = l2[j]?) :
    ∀ j, j < start + length →
      (stride_copy l1 start distance length)[j]? =
        (stride_copy l2 start distance length)[j]? := by
  intro j hj
  rw [(stride_copy_spec l1 start distance length hd hds hlen).2 j,
    (stride_copy_spec l2 start distance length hd hds (by omega)).2 j]
  by_cases h : start ≤ j ∧ j < start + length
  · rw [if_pos h, if_pos h]
    have hm : (j - start) % distance < distance := Nat.mod_lt _ (by omega)
    exact congrArg some (getD_congr_of_getElem _ _ _ (ha _ (by omega)))
  · rw [if_neg h, if_neg h]
    exact ha j (by omega)

lemma DIST_INFO_pos : ∀ p ∈ DIST_INFO, 1 ≤ p.2 := by decide

lemma ihb_iter_agree (dst1 dst2 : List Nat) (dptr : Nat) (src : List Nat)
    (sptr : Nat) (t_ll t_d : LookupTable) (hl : dst1.length = dst2.length)
    (hdp : dptr ≤ dst1.length) (ha : ∀ j, j < dptr → dst1[j]? = dst2[j]?) :
    StepAgree dptr (ihb_iter dst1 dptr src sptr t_ll t_d)
      (ihb_iter dst2 dptr src sptr t_ll t_d) := by
  cases hrs : read_symbol src sptr t_ll with
  | err e =>
    simp only [ihb_iter, hrs, Res.err_bind]
    exact StepAgree.err e
  | crash =>
    simp only [ihb_iter, hrs, Res.crash_bind]
    exact StepAgree.crash
  | spin =>
    simp only [ihb_iter, hrs, Res.spin_bind]
    exact StepAgree.spin
  | ok v =>
    obtain ⟨code_ll, sptr1⟩ := v
    simp only [ihb_iter, hrs, Res.ok_bind]
    by_cases h255 : code_ll ≤ 255
    · rw [if_pos h255, if_pos h255]
      by_cases hdl : dptr < dst1.length
      · rw [if_pos hdl, if_pos (show dptr < dst2.length by omega)]
        exact StepAgree.next _ _ _ _ (by omega) (by rw [List.length_set]; omega)
          (by rw [List.length_set, List.length_set]; omega)
          (set_agree dst1 dst2 dptr code_ll hl ha hdl)
      · rw [if_neg hdl, if_neg (show ¬ dptr < dst2.length by omega)]
        exact StepAgree.crash
    · rw [if_neg h255, if_neg h255]
      by_cases h256 : code_ll = 256
      · rw [if_pos h256, if_pos h256]
        exact StepAgree.done _ _ _ _ hdp hl ha
      · rw [if_neg h256, if_neg h256]
        by_cases h285 : code_ll ≤ 285
        · rw [if_pos h285, if_pos h285]
          cases hci : CODE_INFO.get? (code_ll - 257) with
          | none => exact StepAgree.err _
          | some info_ll =>
            cases hrb : read_bits src sptr1 info_ll.1 with
            | err e =>
              simp only [hrb, Res.err_bind]
              exact StepAgree.err e
            | crash =>
              simp only [hrb, Res.crash_bind]
              exact StepAgree.crash
            | spin =>
              simp only [hrb, Res.spin_bind]
              exact StepAgree.spin
            | ok vb =>
              obtain ⟨extra, sptr2⟩ := vb
              simp only [hrb, Res.ok_bind]
              cases hrd : read_symbol src sptr2 t_d with
              | err e =>
                simp only [hrd, Res.err_bind]
                exact StepAgree.err e
              | crash =>
                simp only [hrd, Res.crash_bind]
                exact StepAgree.crash
              | spin =>
                simp only [hrd, Res.spin_bind]
                exact StepAgree.spin
              | ok vd =>
                obtain ⟨code_d, sptr3⟩ := vd
                simp only [hrd, Res.ok_bind]
                by_cases hc0 : code_d = 0
                · rw [if_pos hc0, if_pos hc0]
                  by_cases hs0 : dptr = 0
                  · rw [if_pos hs0, if_pos hs0]
                    exact StepAgree.err _
                  · rw [if_neg hs0, if_neg hs0]
                    have hg : dst1.get? (dptr - 1) = dst2.get? (dptr - 1) := by
                      rw [List.get?_eq_getElem?, List.get?_eq_getElem?]
                      exact ha _ (by omega)
                    rw [hg]
                    cases hv : dst2.get? (dptr - 1) with
                    | none => exact StepAgree.err _
                    | some value =>
                      simp only []
                      by_cases hfit : dptr + (info_ll.2 + extra) ≤ dst1.length
                      · rw [if_pos hfit,
                          if_pos (show dptr + (info_ll.2 + extra) ≤ dst2.length by omega)]
                        refine StepAgree.next _ _ _ _ (by omega) ?_ ?_
                          (fill_range_agree dst1 dst2 dptr (info_ll.2 + extra) value
                            hl ha hfit)
                        · unfold fill_range
                          rw [write_seq_length _ _ _
                            (by rw [List.length_replicate]; omega)]
                          exact hfit
                        · unfold fill_range
                          rw [write_seq_length _ _ _
                              (by rw [List.length_replicate]; omega),
                            write_seq_length _ _ _
                              (by rw [List.length_replicate]; omega)]
                          omega
                      · rw [if_neg hfit,
                          if_neg (show ¬ dptr + (info_ll.2 + extra) ≤ dst2.length by omega)]
                        exact StepAgree.err _
                · rw [if_neg hc0, if_neg hc0]
                  cases hdi : DIST_INFO.get? code_d with
                  | none => exact StepAgree.err _
                  | some info_d =>
                    cases hrbd : read_bits src sptr3 info_d.1 with
                    | err e =>
                      simp only [hrbd, Res.err_bind]
                      exact StepAgree.err e
                    | crash =>
                      simp only [hrbd, Res.crash_bind]
                      exact StepAgree.crash
                    | spin =>
                      simp only [hrbd, Res.spin_bind]
                      exact StepAgree.spin
                    | ok vd2 =>
                      obtain ⟨extra_d, sptr4⟩ := vd2
                      simp only [hrbd, Res.ok_bind]
                      by_cases hlt : dptr < info_d.2 + extra_d
                      · rw [if_pos hlt, if_pos hlt]
                        exact StepAgree.err _
                      · rw [if_neg hlt, if_neg hlt]
                        by_cases hll : dst1.length - dptr < info_ll.2 + extra
                        · rw [if_pos hll,
                            if_pos (show dst2.length - dptr < info_ll.2 + extra by omega)]
                          exact StepAgree.err _
                        · rw [if_neg hll,
                            if_neg (show ¬ dst2.length - dptr < info_ll.2 + extra by omega)]
                          have hd1 : 1 ≤ info_d.2 + extra_d := by
                            have := DIST_INFO_pos info_d (List.get?_mem hdi)
                            omega
                          have hlen1 : dptr + (info_ll.2 + extra) ≤ dst1.length := by omega
                          refine StepAgree.next _ _ _ _ (by omega) ?_ ?_
                            (stride_copy_agree dst1 dst2 dptr (info_d.2 + extra_d)
                              (info_ll.2 + extra) hd1 (by omega) hlen1 hl ha)
                          · rw [(stride_copy_spec dst1 dptr (info_d.2 + extra_d)
                              (info_ll.2 + extra) hd1 (by omega) hlen1).1]
                            omega
                          · rw [(stride_copy_spec dst1 dptr (info_d.2 + extra_d)
                                (info_ll.2 + extra) hd1 (by omega) hlen1).1,
                              (stride_copy_spec dst2 dptr (info_d.2 + extra_d)
                                (info_ll.2 + extra) hd1 (by omega) (by omega)).1]
                            omega
        · rw [if_neg h285, if_neg h285]
          exact StepAgree.err _

lemma inflate_huffman_block_agree (fuel : Nat) :
    ∀ (dst1 dst2 : List Nat) (dptr sptr : Nat) (src : List Nat)
      (t_ll t_d : LookupTable), dst1.length = dst2.length → dptr ≤ dst1.length →
      (∀ j, j < dptr → dst1[j]? = dst2[j]?) →
      OutAgree (inflate_huffman_block fuel dst1 dptr src sptr t_ll t_d)
        (inflate_huffman_block fuel dst2 dptr src sptr t_ll t_d) := by
  induction fuel with
  | zero =>
    intro dst1 dst2 dptr sptr src t_ll t_d hl hdp ha
    exact OutAgree.spin
  | succ fuel ih =>
    intro dst1 dst2 dptr sptr src t_ll t_d hl hdp ha
    have hag := ihb_iter_agree dst1 dst2 dptr src sptr t_ll t_d hl hdp ha
    simp only [inflate_huffman_block]
    revert hag
    generalize ihb_iter dst1 dptr src sptr t_ll t_d = r1
    generalize ihb_iter dst2 dptr src sptr t_ll t_d = r2
    intro hag
    cases hag with
    | next a1 a2 p s hdp2 hp hlen2 hag2 =>
      exact ih a1 a2 p s src t_ll t_d hlen2 hp hag2
    | done a1 a2 p s hp hlen2 hag2 =>
      exact OutAgree.ok a1 a2 p s hp hlen2 hag2
    | err e => exact OutAgree.err e
    | crash => exact OutAgree.crash
    | spin => exact OutAgree.spin

lemma inflate_no_compression_agree (dst1 dst2 : List Nat) (dptr : Nat)
    (src : List Nat) (sptr : Nat) (hl : dst1.length = dst2.length)
    (hdp : dptr ≤ dst1.length) (ha : ∀ j, j < dptr → dst1[j]? = dst2[j]?) :
    OutAgree (inflate_no_compression dst1 dptr src sptr)
      (inflate_no_compression dst2 dptr src sptr) := by
  simp only [inflate_no_compression]
  set bp := ((sptr + 7) / 8 * 8) >>> 3 with hbp
  set len := src.getD bp 0 + (src.getD (bp + 1) 0 <<< 8) with hlendef
  set nlen := src.getD (bp + 2) 0 + (src.getD (bp + 3) 0 <<< 8) with hnlendef
  by_cases h1 : src.length < bp + 4
  · rw [if_pos h1, if_pos h1]
    exact OutAgree.err _
  · rw [if_neg h1, if_neg h1]
    by_cases h2 : len + nlen ≠ 65535
    · rw [if_pos h2, if_pos h2]
      exact OutAgree.err _
    · rw [if_neg h2, if_neg h2]
      by_cases h3 : src.length < bp + 4 + len
      · rw [if_pos h3, if_pos h3]
        exact OutAgree.err _
      · rw [if_neg h3, if_neg h3]
        have hvs : ((src.drop (bp + 4)).take len).length = len := by
          rw [List.length_take, List.length_drop]
          omega
        by_cases h4 : dptr + len ≤ dst1.length
        · rw [if_pos h4, if_pos (show dptr + len ≤ dst2.length by omega)]
          refine OutAgree.ok _ _ _ _ ?_ ?_ ?_
          · rw [write_seq_length _ _ _ (by rw [hvs]; omega)]
            exact h4
          · rw [write_seq_length _ _ _ (by rw [hvs]; omega),
              write_seq_length _ _ _ (by rw [hvs]; omega)]
            exact hl
          · intro j hj
            rw [write_seq_getElem _ _ _ (by rw [hvs]; omega) j,
              write_seq_getElem _ _ _ (by rw [hvs]; omega) j, hvs]
            by_cases hin : dptr ≤ j ∧ j < dptr + len
            · rw [if_pos hin, if_pos hin]
            · rw [if_neg hin, if_neg hin]
              exact ha j (by omega)
        · rw [if_neg h4, if_neg (show ¬ dptr + len ≤ dst2.length by omega)]
          exact OutAgree.crash

lemma bind_pure_agree (X1 X2 : Res Error (List Nat × Nat × Nat)) (b : Nat)
    (h : OutAgree X1 X2) :
    StepOutAgree (X1 >>= fun st => pure (st, b)) (X2 >>= fun st => pure (st, b)) := by
  cases h with
  | ok a1 a2 p s hp hlen hag => exact StepOutAgree.ok a1 a2 p s b hp hlen hag
  | err e => exact StepOutAgree.err e
  | crash => exact StepOutAgree.crash
  | spin => exact StepOutAgree.spin

lemma inflate_step_agree (fuel : Nat) (dst1 dst2 : List Nat) (dptr : Nat)
    (src : List Nat) (sptr : Nat) (hl : dst1.length = dst2.length)
    (hdp : dptr ≤ dst1.length) (ha : ∀ j, j < dptr → dst1[j]? = dst2[j]?) :
    StepOutAgree (inflate_step fuel dst1 dptr src sptr)
      (inflate_step fuel dst2 dptr src sptr) := by
  cases hb1 : read_bits src sptr 1 with
  | err e =>
    simp only [inflate_step, hb1, Res.err_bind]
    exact StepOutAgree.err e
  | crash =>
    simp only [inflate_step, hb1, Res.crash_bind]
    exact StepOutAgree.crash
  | spin =>
    simp only [inflate_step, hb1, Res.spin_bind]
    exact StepOutAgree.spin
  | ok v1 =>
    obtain ⟨b_final, sptr1⟩ := v1
    cases hb2 : read_bits src sptr1 2 with
    | err e =>
      simp only [inflate_step, hb1, Res.ok_bind, hb2, Res.err_bind]
      exact StepOutAgree.err e
    | crash =>
      simp only [inflate_step, hb1, Res.ok_bind, hb2, Res.crash_bind]
      exact StepOutAgree.crash
    | spin =>
      simp only [inflate_step, hb1, Res.ok_bind, hb2, Res.spin_bind]
      exact StepOutAgree.spin
    | ok v2 =>
      obtain ⟨b_type, sptr2⟩ := v2
      simp only [inflate_step, hb1, Res.ok_bind, hb2]
      by_cases ht0 : b_type = 0
      · rw [if_pos ht0, if_pos ht0]
        exact bind_pure_agree _ _ _
          (inflate_no_compression_agree dst1 dst2 dptr src sptr2 hl hdp ha)
      · rw [if_neg ht0, if_neg ht0]
        by_cases ht1 : b_type = 1
        · rw [if_pos ht1, if_pos ht1]
          cases hgf : generate_fixed_luts with
          | err e =>
            simp only [hgf, Res.err_bind]
            exact StepOutAgree.err e
          | crash =>
            simp only [hgf, Res.crash_bind]
            exact StepOutAgree.crash
          | spin =>
            simp only [hgf, Res.spin_bind]
            exact StepOutAgree.spin
          | ok trees =>
            simp only [hgf, Res.ok_bind]
            exact bind_pure_agree _ _ _
              (inflate_huffman_block_agree fuel dst1 dst2 dptr sptr2 src
                trees.1 trees.2 hl hdp ha)
        · rw [if_neg ht1, if_neg ht1]
          by_cases ht2 : b_type = 2
          · rw [if_pos ht2, if_pos ht2]
            cases hre : read_encoded_luts fuel src sptr2 with
            | err e =>
              simp only [hre, Res.err_bind]
              exact StepOutAgree.err e
            | crash =>
              simp only [hre, Res.crash_bind]
              exact StepOutAgree.crash
            | spin =>
              simp only [hre, Res.spin_bind]
              exact StepOutAgree.spin
            | ok tr =>
              simp only [hre, Res.ok_bind]
              exact bind_pure_agree _ _ _
                (inflate_huffman_block_agree fuel dst1 dst2 dptr tr.2.2 src
                  tr.1 tr.2.1 hl hdp ha)
          · rw [if_neg ht2, if_neg ht2]
            exact StepOutAgree.err _

lemma inflate_loop_agree (fuel : Nat) :
    ∀ (dst1 dst2 : List Nat) (dptr sptr : Nat) (src : List Nat),
      dst1.length = dst2.length → dptr ≤ dst1.length →
      (∀ j, j < dptr → dst1[j]? = dst2[j]?) →
      InflateAgree (inflate_loop fuel dst1 dptr src sptr)
        (inflate_loop fuel dst2 dptr src sptr) := by
  induction fuel with
  | zero =>
    intro dst1 dst2 dptr sptr src hl hdp ha
    exact trivial
  | succ fuel ih =>
    intro dst1 dst2 dptr sptr src hl hdp ha
    have hag := inflate_step_agree fuel dst1 dst2 dptr src sptr hl hdp ha
    simp only [inflate_loop]
    revert hag
    generalize inflate_step fuel dst1 dptr src sptr = r1
    generalize inflate_step fuel dst2 dptr src sptr = r2
    intro hag
    cases hag with
    | ok a1 a2 p s b hp hlen2 hag2 =>
      simp only []
      by_cases hb : b ≠ 0
      · rw [if_pos hb, if_pos hb]
        refine ⟨rfl, ?_⟩
        refine List.ext_getElem? ?_
        intro j
        rw [List.getElem?_take, List.getElem?_take]
        by_cases hj : j < p
        · rw [if_pos hj, if_pos hj]
          exact hag2 j hj
        · rw [if_neg hj, if_neg hj]
      · rw [if_neg hb, if_neg hb]
        exact ih a1 a2 p s src hlen2 hp hag2
    | err e => exact rfl
    | crash => exact trivial
    | spin => exact trivial

/-- C10: inflate is deterministic and independent of the prior contents of
the destination buffer.  For any source and any two destination buffers of
equal capacity, both runs take the same outcome (the same error, the same
panic or divergence, or success with the same produced length), and on
success the produced prefixes are byte-for-byte identical, because every
back-reference reads only output positions already written in the same
call. -/
theorem claim_C10 (fuel : Nat) (src dst1 dst2 : List Nat)
    (hlen : dst1.length = dst2.length) :
    InflateAgree (inflate fuel dst1 src) (inflate fuel dst2 src) := by
  unfold inflate
  exact inflate_loop_agree fuel dst1 dst2 0 0 src hlen (Nat.zero_le _)
    (fun j hj => absurd hj (by omega))

/-- Witness for claim_C10: a one-byte stored block decoded into two buffers
with different prior contents. -/
theorem claim_C10_witness :
    ([1, 2] : List Nat).length = ([9, 9] : List Nat).length ∧
    InflateAgree (inflate 2 [1, 2] [0x01, 0x01, 0x00, 0xfe, 0xff, 0x66])
      (inflate 2 [9, 9] [0x01, 0x01, 0x00, 0xfe, 0xff, 0x66]) :=
  ⟨rfl, claim_C10 2 [0x01, 0x01, 0x00, 0xfe, 0xff, 0x66] [1, 2] [9, 9] rfl⟩
